import Mathlib

/-!
# Verification of `rule/update_stats.js`

A shallow embedding of the three core text-transformation functions of the
rule-statistics updater (`parseCountsFromList`, `updateListHeader`,
`updateReadme`) together with proofs of the specified properties.

JavaScript strings are modelled as Lean `String` (a wrapper around
`List Char`); the JS string primitives used by the source
(`split(/\r?\n/)`, `trim`, `startsWith`, `indexOf`, `slice`, `includes`,
`replace`, `replaceAll`, `padEnd`, `Array.prototype.join('\n')`,
`Array.prototype.splice`, `Array.prototype.findIndex`) are given explicit
executable models below.
-/

namespace UpdateStats

/-- The set of characters matched by JavaScript's `\s` regex class and
removed by `String.prototype.trim` (ECMAScript WhiteSpace ∪ LineTerminator). -/
def isJsSpace (c : Char) : Bool :=
  let n := c.toNat
  n == 9 || n == 10 || n == 11 || n == 12 || n == 13 || n == 32 ||
  n == 0xA0 || n == 0x1680 || (0x2000 ≤ n && n ≤ 0x200A) ||
  n == 0x2028 || n == 0x2029 || n == 0x202F || n == 0x205F ||
  n == 0x3000 || n == 0xFEFF

/-- JS `String.prototype.trim`: drop `isJsSpace` characters from both ends. -/
def jsTrim (s : String) : String :=
  ⟨((s.data.dropWhile isJsSpace).reverse.dropWhile isJsSpace).reverse⟩

/-- JS `String.prototype.startsWith`. -/
def jsStartsWith (s pre : String) : Bool :=
  pre.data.isPrefixOf s.data

/-- JS `String.prototype.indexOf` for a single character, as an `Option`
(`none` models the JS return value `-1`). -/
def jsIndexOfChar (c : Char) : List Char → Option Nat
  | [] => none
  | a :: rest => if a = c then some 0 else (jsIndexOfChar c rest).map (· + 1)

/-- Substring containment over character lists (JS `String.prototype.includes`). -/
def containsTok (tok : List Char) : List Char → Bool
  | [] => tok.isEmpty
  | c :: rest => tok.isPrefixOf (c :: rest) || containsTok tok rest

/-- ECMAScript `GetSubstitution` for a string search pattern: expand the
`$`-escape sequences of the replacement template (`$$` is a literal dollar,
`$&` the matched substring, `` $` `` the text before the match, `$'` the text
after it; with a string pattern there are no capture groups, so everything
else — including `$1` and `$<name>` — is literal). -/
def getSubstitution (matched before after : List Char) : List Char → List Char
  | [] => []
  | '$' :: '$' :: r => '$' :: getSubstitution matched before after r
  | '$' :: '&' :: r => matched ++ getSubstitution matched before after r
  | '$' :: '\x60' :: r => before ++ getSubstitution matched before after r
  | '$' :: '\x27' :: r => after ++ getSubstitution matched before after r
  | c :: r => c :: getSubstitution matched before after r

/-- Replace the first occurrence of the pattern `p :: ps` by the expansion of
`rep` (JS `String.prototype.replace` with a string pattern); `pre` is the
already-scanned prefix of the original string, fed to `GetSubstitution` for
`` $` ``. -/
def replaceFirstAux (p : Char) (ps rep : List Char) :
    List Char → List Char → List Char
  | _, [] => []
  | pre, c :: rest =>
    if (p :: ps).isPrefixOf (c :: rest) then
      getSubstitution (p :: ps) pre (rest.drop ps.length) rep ++
        rest.drop ps.length
    else c :: replaceFirstAux p ps rep (pre ++ [c]) rest

/-- JS `String.prototype.replace` with a string pattern: first occurrence
only, with `GetSubstitution` applied to the replacement string. -/
def replaceFirstL (tok rep l : List Char) : List Char :=
  match tok with
  | [] => l
  | p :: ps => replaceFirstAux p ps rep [] l

/-- Replace every (left-to-right, non-overlapping) occurrence of the pattern
`p :: ps` by the expansion of `rep` (JS `String.prototype.replaceAll` with a
string pattern); `pre` is the already-scanned prefix of the original string. -/
def replaceAllAux (p : Char) (ps rep : List Char) :
    List Char → List Char → List Char
  | _, [] => []
  | pre, c :: rest =>
    if (p :: ps).isPrefixOf (c :: rest) then
      getSubstitution (p :: ps) pre (rest.drop ps.length) rep ++
        replaceAllAux p ps rep (pre ++ (p :: ps)) (rest.drop ps.length)
    else c :: replaceAllAux p ps rep (pre ++ [c]) rest
termination_by _ l => l.length
decreasing_by
  · simp only [List.length_cons, List.length_drop]
    omega
  · simp

/-- JS `String.prototype.replaceAll` with a string pattern, with
`GetSubstitution` applied to the replacement string at each match. -/
def replaceAllL (tok rep l : List Char) : List Char :=
  match tok with
  | [] => l
  | p :: ps => replaceAllAux p ps rep [] l

/-- JS `String.prototype.includes` on strings. -/
def jsIncludes (s sub : String) : Bool :=
  containsTok sub.data s.data

/-- JS `String.prototype.padEnd(n, ' ')`. -/
def padEnd (s : String) (n : Nat) : String :=
  ⟨s.data ++ List.replicate (n - s.data.length) ' '⟩

/-- The decimal digit character for `n < 10` (last case covers `9`). -/
def digitChar (n : Nat) : Char :=
  if n = 0 then '0' else if n = 1 then '1' else if n = 2 then '2'
  else if n = 3 then '3' else if n = 4 then '4' else if n = 5 then '5'
  else if n = 6 then '6' else if n = 7 then '7' else if n = 8 then '8'
  else '9'

/-- Decimal digits with explicit fuel; a number with `fuel` decimal digits or
fewer is rendered completely (each recursive step consumes one fuel and one
digit). -/
def natDigitsAux (fuel : Nat) (n : Nat) : List Char :=
  match fuel with
  | 0 => []
  | fuel + 1 =>
    if n < 10 then [digitChar n]
    else natDigitsAux fuel (n / 10) ++ [digitChar (n % 10)]

/-- Decimal digits of a natural number (JS `String(n)` for a non-negative
integer); `n + 1` fuel always suffices since `n` has at most `n + 1` digits. -/
def natDigits (n : Nat) : List Char := natDigitsAux (n + 1) n

/-- JS `String(n)` for a non-negative integer. -/
def natToString (n : Nat) : String := ⟨natDigits n⟩

/-- `content.split(/\r?\n/)`: a line break is `"\n"`, optionally preceded by
`"\r"`; a carriage return not followed by a line feed stays in the line. -/
def splitLinesAux : List Char → List Char → List String
  | [], acc => [⟨acc.reverse⟩]
  | '\n' :: rest, acc => ⟨acc.reverse⟩ :: splitLinesAux rest []
  | '\r' :: '\n' :: rest, acc => ⟨acc.reverse⟩ :: splitLinesAux rest []
  | c :: rest, acc => splitLinesAux rest (c :: acc)

/-- `content.split(/\r?\n/)`. -/
def splitLines (s : String) : List String :=
  splitLinesAux s.data []

/-- `lines.join('\n')`. -/
def joinNL : List String → String
  | [] => ""
  | [l] => l
  | l :: rest => l ++ "\n" ++ joinNL rest

/-- `Array.prototype.splice(n, 0, a)`: insert `a` at index `n`, clamped to the
array length. -/
def spliceInsert (l : List α) (n : Nat) (a : α) : List α :=
  l.take n ++ a :: l.drop n

/-- `Array.prototype.findIndex` (`none` models the JS return value `-1`). -/
def jsFindIndex (p : α → Bool) : List α → Option Nat
  | [] => none
  | a :: rest => if p a then some 0 else (jsFindIndex p rest).map (· + 1)

/-! ## Counter (`isRuleLine`, `parseCountsFromList`) -/

/-- `isRuleLine` from the source: a line is a rule entry iff it is non-empty,
not whitespace-only, and its trimmed form does not start with `#`. -/
def isRuleLine (line : String) : Bool :=
  if line = "" then false
  else if (jsTrim line).length = 0 then false
  else if jsStartsWith (jsTrim line) "#" then false
  else true

/-- The category token of a line:
`(idx === -1 ? line : line.slice(0, idx)).trim()` where
`idx = line.indexOf(',')`. -/
def extractType (line : String) : String :=
  match jsIndexOfChar ',' line.data with
  | none => jsTrim line
  | some i => jsTrim ⟨line.data.take i⟩

/-- `typeCounts[type] = (typeCounts[type] || 0) + 1` on an insertion-ordered
association list (the JS object with null prototype). -/
def bump : List (String × Nat) → String → List (String × Nat)
  | [], k => [(k, 1)]
  | (k', v) :: rest, k =>
    if k' = k then (k', v + 1) :: rest else (k', v) :: bump rest k

/-- The body of the `for (const line of lines)` loop in `parseCountsFromList`. -/
def countStep (acc : List (String × Nat) × Nat) (line : String) :
    List (String × Nat) × Nat :=
  if !isRuleLine line then acc
  else if extractType line = "" then acc
  else (bump acc.1 (extractType line), acc.2 + 1)

/-- The result record of `parseCountsFromList`. -/
structure CountSummary where
  typeCounts : List (String × Nat)
  total : Nat
deriving DecidableEq, Repr

/-- `parseCountsFromList` from the source. -/
def parseCountsFromList (content : String) : CountSummary :=
  let r := (splitLines content).foldl countStep ([], 0)
  { typeCounts := r.1, total := r.2 }

/-! ## `updateListHeader` -/

/-- The named arguments of `updateListHeader`. -/
structure HeaderArgs where
  updatedAt : String
  domainCount : Nat
  domainSuffixCount : Nat
  total : Nat
deriving DecidableEq, Repr

/-- The canonical `# UPDATED:` line. -/
def updatedLine (a : HeaderArgs) : String := "# UPDATED: " ++ a.updatedAt

/-- The canonical `# DOMAIN:` line. -/
def domainLine (a : HeaderArgs) : String :=
  "# DOMAIN: " ++ natToString a.domainCount

/-- The canonical `# DOMAIN-SUFFIX:` line. -/
def domainSuffixLine (a : HeaderArgs) : String :=
  "# DOMAIN-SUFFIX: " ++ natToString a.domainSuffixCount

/-- The canonical `# TOTAL:` line. -/
def totalLine (a : HeaderArgs) : String := "# TOTAL: " ++ natToString a.total

/-- The body of the `for (const line of lines)` loop in `updateListHeader`:
replace a recognized header line by its canonical form, pass others through. -/
def replaceHeaderLine (a : HeaderArgs) (line : String) : String :=
  if jsStartsWith line "# UPDATED:" then updatedLine a
  else if jsStartsWith line "# DOMAIN:" then domainLine a
  else if jsStartsWith line "# DOMAIN-SUFFIX:" then domainSuffixLine a
  else if jsStartsWith line "# TOTAL:" then totalLine a
  else line

/-- Whether a line starts with one of the four recognized header prefixes. -/
def isHeaderTagLine (line : String) : Bool :=
  jsStartsWith line "# UPDATED:" || jsStartsWith line "# DOMAIN:" ||
  jsStartsWith line "# DOMAIN-SUFFIX:" || jsStartsWith line "# TOTAL:"

/-- `insertHeaderIfMissing` from the source, for the `UPDATED` tag: insert
the canonical line directly after the first line whose trimmed content is
non-empty (`out.findIndex((l) => l.trim().length > 0)`), or at position 0 if
no such line exists, clamped by `Math.min(idx + 1, out.length)`. -/
def insertUpdatedIfMissing (hasUpdated : Bool) (a : HeaderArgs)
    (out : List String) : List String :=
  if hasUpdated then out
  else
    let insertAt :=
      match jsFindIndex (fun l => 0 < (jsTrim l).length) out with
      | none => 0
      | some i => min (i + 1) out.length
    spliceInsert out insertAt (updatedLine a)

/-- One `if (!hasX) out.splice(n, 0, line)` statement from the source. -/
def insertMissing (hasTag : Bool) (n : Nat) (line : String)
    (out : List String) : List String :=
  if hasTag then out else spliceInsert out n line

/-- The `out` array built by `updateListHeader` just before `join('\n')`:
the replacement loop, then the conditional insertions (`insertHeaderIfMissing`
for `UPDATED`, then `out.splice(2/3/4, 0, ...)` for the other three tags). -/
def updateListHeaderLines (content : String) (a : HeaderArgs) : List String :=
  let lines := splitLines content
  insertMissing (lines.any (fun l => jsStartsWith l "# TOTAL:")) 4 (totalLine a)
    (insertMissing (lines.any (fun l => jsStartsWith l "# DOMAIN-SUFFIX:")) 3
      (domainSuffixLine a)
      (insertMissing (lines.any (fun l => jsStartsWith l "# DOMAIN:")) 2
        (domainLine a)
        (insertUpdatedIfMissing
          (lines.any (fun l => jsStartsWith l "# UPDATED:")) a
          (lines.map (replaceHeaderLine a)))))

/-- `updateListHeader` from the source. -/
def updateListHeader (content : String) (a : HeaderArgs) : String :=
  joinNL (updateListHeaderLines content a)

/-! ## `updateReadme` -/

/-- The named arguments of `updateReadme`; `tempName` is optional in the JS
signature and is additionally tested for truthiness (`none` and `some ""` are
both falsy). -/
structure ReadmeArgs where
  updatedAt : String
  domainCount : Nat
  domainSuffixCount : Nat
  total : Nat
  tempName : Option String
deriving DecidableEq, Repr

/-- The fixed label `最后更新时间：` ("last updated time:"). -/
def updatedAtLabel : String := "最后更新时间："

/-- The `${{ datetime }}` placeholder token. -/
def dtTok : String := "$\x7b\x7b datetime \x7d\x7d"

/-- The `${{ TempName }}` placeholder token. -/
def tmpTok : String := "$\x7b\x7b TempName \x7d\x7d"

/-- The tail of the table-row regex
`^\|\s*KEY\s*\|\s*\d+\s*\|$` after the leading `\|`. -/
def matchesRowTail (k : List Char) (r1 : List Char) : Bool :=
  let r2 := r1.dropWhile isJsSpace
  if k.isPrefixOf r2 then
    let r3 := (r2.drop k.length).dropWhile isJsSpace
    if r3.head? == some '|' then
      let r5 := r3.tail.dropWhile isJsSpace
      let ds := r5.takeWhile Char.isDigit
      if ds.isEmpty then false
      else
        let r6 := (r5.drop ds.length).dropWhile isJsSpace
        r6 == ['|']
    else false
  else false

/-- The table-row regex `^\|\s*KEY\s*\|\s*\d+\s*\|$` of `updateReadme`. -/
def matchesRow (key : String) (line : String) : Bool :=
  if line.data.head? == some '|' then matchesRowTail key.data line.data.tail
  else false

/-- The replacement row `| ${key.padEnd(14, ' ')} | ${String(value).padEnd(5, ' ')} |`. -/
def renderRow (key : String) (v : Nat) : String :=
  "| " ++ padEnd key 14 ++ " | " ++ padEnd (natToString v) 5 ++ " |"

/-- The body of the `lines.map((line) => ...)` callback in `updateReadme`:
the `updatedAtPrefix` rule, then the three `tableMatchers` in order, then the
`${{ datetime }}` rule, then the `${{ TempName }}` rule. -/
def transformReadmeLine (a : ReadmeArgs) (line : String) : String :=
  if jsStartsWith line updatedAtLabel then updatedAtLabel ++ a.updatedAt
  else if matchesRow "DOMAIN" line then renderRow "DOMAIN" a.domainCount
  else if matchesRow "DOMAIN-SUFFIX" line then
    renderRow "DOMAIN-SUFFIX" a.domainSuffixCount
  else if matchesRow "TOTAL" line then renderRow "TOTAL" a.total
  else if jsIncludes line dtTok then
    ⟨replaceFirstL dtTok.data a.updatedAt.data line.data⟩
  else
    match a.tempName with
    | some t =>
      if jsIncludes line tmpTok && !(t == "") then
        ⟨replaceAllL tmpTok.data t.data line.data⟩
      else line
    | none => line

/-- `updateReadme` from the source. -/
def updateReadme (content : String) (a : ReadmeArgs) : String :=
  joinNL ((splitLines content).map (transformReadmeLine a))

end UpdateStats

namespace UpdateStats

/-! ## Basic helper lemmas -/

lemma strData_append (a b : String) : (a ++ b).data = a.data ++ b.data := rfl

lemma strMk_data (s : String) : (⟨s.data⟩ : String) = s := by
  cases s; rfl

lemma isPrefixOf_true {α} [BEq α] [LawfulBEq α] (l₁ l₂ : List α) :
    l₁.isPrefixOf l₂ = true ↔ ∃ t, l₂ = l₁ ++ t := by
  induction l₁ generalizing l₂ with
  | nil => simp [List.isPrefixOf]
  | cons a l ih =>
    cases l₂ with
    | nil => simp [List.isPrefixOf]
    | cons b t =>
      simp only [List.isPrefixOf, Bool.and_eq_true, beq_iff_eq, ih,
        List.cons_append, List.cons.injEq]
      constructor
      · rintro ⟨rfl, u, rfl⟩; exact ⟨u, rfl, rfl⟩
      · rintro ⟨u, rfl, rfl⟩; exact ⟨rfl, u, rfl⟩

lemma jsStartsWith_iff (s pre : String) :
    jsStartsWith s pre = true ↔ ∃ t, s.data = pre.data ++ t :=
  isPrefixOf_true pre.data s.data

/-- Whether a string starts with `pre` only depends on its first
`pre.length` characters. -/
lemma jsStartsWith_append_left (pre base u : String)
    (h : pre.data.length ≤ base.data.length) :
    jsStartsWith (base ++ u) pre = jsStartsWith base pre := by
  rw [Bool.eq_iff_iff, jsStartsWith_iff, jsStartsWith_iff]
  constructor
  · rintro ⟨t, ht⟩
    refine ⟨base.data.drop pre.data.length, ?_⟩
    have h2 : base.data.take pre.data.length = pre.data := by
      have h3 := congrArg (List.take pre.data.length) ht
      rwa [strData_append, List.take_append_of_le_length h,
        List.take_left' rfl] at h3
    conv_lhs => rw [← List.take_append_drop pre.data.length base.data, h2]
  · rintro ⟨t, ht⟩
    exact ⟨t ++ u.data, by rw [strData_append, ht, List.append_assoc]⟩

/-- A string starting with `p` cannot start with `q` when `q` disagrees with
`p` within the first `k` characters of both. -/
lemma jsStartsWith_false_of_mismatch (p q : String) (k : Nat)
    (hk1 : k ≤ p.data.length) (hk2 : k ≤ q.data.length)
    (hne : p.data.take k ≠ q.data.take k)
    (l : String) (h : jsStartsWith l p = true) : jsStartsWith l q = false := by
  rw [Bool.eq_false_iff]
  intro hb
  rw [jsStartsWith_iff] at h hb
  rcases h with ⟨t1, ht1⟩
  rcases hb with ⟨t2, ht2⟩
  apply hne
  have e : p.data ++ t1 = q.data ++ t2 := by rw [← ht1, ← ht2]
  have h4 := congrArg (List.take k) e
  rwa [List.take_append_of_le_length hk1,
    List.take_append_of_le_length hk2] at h4

lemma map_fix {α} (f : α → α) (l : List α) (h : ∀ x ∈ l, f x = x) :
    l.map f = l := by
  induction l with
  | nil => rfl
  | cons a t ih =>
    simp only [List.map_cons, h a (by simp),
      ih (fun x hx => h x (by simp [hx])) ]

lemma any_false {α} (p : α → Bool) (l : List α) (h : ∀ x ∈ l, p x = false) :
    l.any p = false := by
  induction l with
  | nil => rfl
  | cons a t ih =>
    simp only [List.any_cons, h a (by simp), Bool.false_or]
    exact ih (fun x hx => h x (by simp [hx]))

end UpdateStats

namespace UpdateStats

/-! ## Lemmas about `splitLines` and `joinNL` -/

lemma splitLinesAux_nil (acc : List Char) :
    splitLinesAux [] acc = [⟨acc.reverse⟩] := by
  simp [splitLinesAux]

lemma splitLinesAux_lf (rest acc : List Char) :
    splitLinesAux ('\n' :: rest) acc = ⟨acc.reverse⟩ :: splitLinesAux rest [] := by
  simp [splitLinesAux]

lemma splitLinesAux_crlf (rest acc : List Char) :
    splitLinesAux ('\r' :: '\n' :: rest) acc =
      ⟨acc.reverse⟩ :: splitLinesAux rest [] := by
  simp [splitLinesAux]

lemma splitLinesAux_other (c : Char) (rest acc : List Char)
    (h1 : c ≠ '\n') (h2 : c ≠ '\r' ∨ rest.head? ≠ some '\n') :
    splitLinesAux (c :: rest) acc = splitLinesAux rest (c :: acc) := by
  rw [splitLinesAux.eq_def]
  split
  · rename_i heq
    exact absurd heq (by simp)
  · rename_i heq
    injection heq with hx hy
    exact absurd hx h1
  · rename_i heq
    injection heq with hx hy
    rcases h2 with h2 | h2
    · exact absurd hx h2
    · rw [hy] at h2
      simp at h2
  · rename_i hc1 hc2 heq
    injection heq with hx hy
    subst hx
    subst hy
    rfl

/-- The side condition of the pass-through case, derived from the functional
induction hypotheses. -/
lemma splitLinesAux_side (c : Char) (rest : List Char)
    (h2 : ∀ rest_1 : List Char, c = '\r' → rest = '\n' :: rest_1 → False) :
    c ≠ '\r' ∨ rest.head? ≠ some '\n' := by
  by_cases hc : c = '\r'
  · subst hc
    right
    intro hh
    cases rest with
    | nil => simp at hh
    | cons x t =>
      have hx : x = '\n' := by simpa using hh
      exact h2 t rfl (by rw [hx])
  · exact Or.inl hc

lemma splitLinesAux_ne_nil (s acc : List Char) : splitLinesAux s acc ≠ [] := by
  induction s, acc using splitLinesAux.induct with
  | case1 acc => simp [splitLinesAux_nil]
  | case2 rest acc ih => simp [splitLinesAux_lf]
  | case3 rest acc ih => simp [splitLinesAux_crlf]
  | case4 c rest acc h1 h2 ih =>
    rw [splitLinesAux_other c rest acc (fun h => h1 h) (splitLinesAux_side c rest h2)]
    exact ih

end UpdateStats

namespace UpdateStats

lemma strData_nl : ("\n" : String).data = ['\n'] := rfl

lemma splitLinesAux_no_lf (s acc : List Char) :
    '\n' ∉ acc → ∀ l ∈ splitLinesAux s acc, '\n' ∉ l.data := by
  induction s, acc using splitLinesAux.induct with
  | case1 acc =>
    intro hacc l hl
    rw [splitLinesAux_nil] at hl
    simp only [List.mem_singleton] at hl
    subst hl
    simpa using hacc
  | case2 rest acc ih =>
    intro hacc l hl
    rw [splitLinesAux_lf] at hl
    rcases List.mem_cons.mp hl with rfl | hl
    · simpa using hacc
    · exact ih (by simp) l hl
  | case3 rest acc ih =>
    intro hacc l hl
    rw [splitLinesAux_crlf] at hl
    rcases List.mem_cons.mp hl with rfl | hl
    · simpa using hacc
    · exact ih (by simp) l hl
  | case4 c rest acc h1 h2 ih =>
    intro hacc l hl
    rw [splitLinesAux_other c rest acc (fun h => h1 h)
      (splitLinesAux_side c rest h2)] at hl
    refine ih ?_ l hl
    simp only [List.mem_cons, not_or]
    exact ⟨fun h => h1 h.symm, hacc⟩

lemma splitLines_no_lf (content : String) :
    ∀ l ∈ splitLines content, '\n' ∉ l.data :=
  splitLinesAux_no_lf content.data [] (by simp)

/-- Splitting a line that contains no line feed yields just that line. -/
lemma splitLinesAux_last (l : List Char) (hl : '\n' ∉ l) :
    ∀ acc, splitLinesAux l acc = [⟨acc.reverse ++ l⟩] := by
  induction l with
  | nil => intro acc; rw [splitLinesAux_nil]; simp
  | cons c l' ih =>
    intro acc
    simp only [List.mem_cons, not_or] at hl
    have h1 : c ≠ '\n' := fun h => hl.1 h.symm
    have h2 : c ≠ '\r' ∨ l'.head? ≠ some '\n' := by
      right
      intro hh
      cases l' with
      | nil => simp at hh
      | cons x t =>
        have hx : x = '\n' := by simpa using hh
        exact hl.2 (by simp [hx])
    rw [splitLinesAux_other c l' acc h1 h2, ih hl.2]
    simp

/-- Splitting `line ++ "\n" ++ rest` peels off `line` when the line contains
no line feed and does not end in a carriage return. -/
lemma splitLinesAux_append_line (l : List Char) (hl : '\n' ∉ l)
    (hlast : l.getLast? ≠ some '\r') :
    ∀ acc r, splitLinesAux (l ++ '\n' :: r) acc =
      ⟨acc.reverse ++ l⟩ :: splitLinesAux r [] := by
  induction l with
  | nil => intro acc r; rw [List.nil_append, splitLinesAux_lf]; simp
  | cons c l' ih =>
    intro acc r
    simp only [List.mem_cons, not_or] at hl
    have h1 : c ≠ '\n' := fun h => hl.1 h.symm
    have h2 : c ≠ '\r' ∨ (l' ++ '\n' :: r).head? ≠ some '\n' := by
      by_cases hc : c = '\r'
      · subst hc
        right
        cases l' with
        | nil => simp at hlast
        | cons x t =>
          intro hh
          have hx : x = '\n' := by simpa using hh
          exact hl.2 (by simp [hx])
      · exact Or.inl hc
    have hlast' : l'.getLast? ≠ some '\r' := by
      cases l' with
      | nil => simp
      | cons x t => rwa [List.getLast?_cons_cons] at hlast
    rw [List.cons_append, splitLinesAux_other c (l' ++ '\n' :: r) acc h1 h2,
      ih hl.2 hlast']
    simp

/-- Joining clean lines with `'\n'` and re-splitting recovers the lines:
the round-trip identity behind idempotence of the header rewrite. -/
lemma splitLines_joinNL (ls : List String) (h0 : ls ≠ [])
    (hc : ∀ l ∈ ls, '\n' ∉ l.data ∧ l.data.getLast? ≠ some '\r') :
    splitLines (joinNL ls) = ls := by
  induction ls with
  | nil => exact absurd rfl h0
  | cons l rest ih =>
    cases rest with
    | nil =>
      show splitLinesAux l.data [] = [l]
      rw [splitLinesAux_last l.data (hc l (by simp)).1]
      simp [strMk_data]
    | cons r rest' =>
      show splitLinesAux (joinNL (l :: r :: rest')).data [] = l :: r :: rest'
      have hdata : (joinNL (l :: r :: rest')).data =
          l.data ++ '\n' :: (joinNL (r :: rest')).data := by
        show (l ++ "\n" ++ joinNL (r :: rest')).data = _
        rw [strData_append, strData_append, strData_nl, List.append_assoc]
        rfl
      rw [hdata,
        splitLinesAux_append_line l.data (hc l (by simp)).1 (hc l (by simp)).2]
      have ih' := ih (by simp) (fun x hx => hc x (by simp [hx]))
      rw [show splitLinesAux (joinNL (r :: rest')).data [] =
          splitLines (joinNL (r :: rest')) from rfl, ih']
      simp [strMk_data]

end UpdateStats

namespace UpdateStats

/-! ## Lemmas about the canonical header lines -/

lemma jsStartsWith_append_false (pre base u : String) (k : Nat)
    (hk1 : k ≤ pre.data.length) (hk2 : k ≤ base.data.length)
    (hne : pre.data.take k ≠ base.data.take k) :
    jsStartsWith (base ++ u) pre = false := by
  rw [Bool.eq_false_iff]
  intro hb
  rw [jsStartsWith_iff] at hb
  rcases hb with ⟨t, ht⟩
  rw [strData_append] at ht
  apply hne
  have h4 := congrArg (List.take k) ht.symm
  rwa [List.take_append_of_le_length hk1,
    List.take_append_of_le_length hk2] at h4

lemma updatedLine_sw_updated (a : HeaderArgs) :
    jsStartsWith (updatedLine a) "# UPDATED:" = true := by
  rw [updatedLine, jsStartsWith_append_left _ _ _ (by decide)]
  decide

lemma domainLine_sw_updated (a : HeaderArgs) :
    jsStartsWith (domainLine a) "# UPDATED:" = false :=
  jsStartsWith_append_false _ _ _ 3 (by decide) (by decide) (by decide)

lemma domainLine_sw_domain (a : HeaderArgs) :
    jsStartsWith (domainLine a) "# DOMAIN:" = true := by
  rw [domainLine, jsStartsWith_append_left _ _ _ (by decide)]
  decide

lemma domainSuffixLine_sw_updated (a : HeaderArgs) :
    jsStartsWith (domainSuffixLine a) "# UPDATED:" = false :=
  jsStartsWith_append_false _ _ _ 3 (by decide) (by decide) (by decide)

lemma domainSuffixLine_sw_domain (a : HeaderArgs) :
    jsStartsWith (domainSuffixLine a) "# DOMAIN:" = false :=
  jsStartsWith_append_false _ _ _ 9 (by decide) (by decide) (by decide)

lemma domainSuffixLine_sw_domainSuffix (a : HeaderArgs) :
    jsStartsWith (domainSuffixLine a) "# DOMAIN-SUFFIX:" = true := by
  rw [domainSuffixLine, jsStartsWith_append_left _ _ _ (by decide)]
  decide

lemma totalLine_sw_updated (a : HeaderArgs) :
    jsStartsWith (totalLine a) "# UPDATED:" = false :=
  jsStartsWith_append_false _ _ _ 3 (by decide) (by decide) (by decide)

lemma totalLine_sw_domain (a : HeaderArgs) :
    jsStartsWith (totalLine a) "# DOMAIN:" = false :=
  jsStartsWith_append_false _ _ _ 3 (by decide) (by decide) (by decide)

lemma totalLine_sw_domainSuffix (a : HeaderArgs) :
    jsStartsWith (totalLine a) "# DOMAIN-SUFFIX:" = false :=
  jsStartsWith_append_false _ _ _ 3 (by decide) (by decide) (by decide)

lemma totalLine_sw_total (a : HeaderArgs) :
    jsStartsWith (totalLine a) "# TOTAL:" = true := by
  rw [totalLine, jsStartsWith_append_left _ _ _ (by decide)]
  decide

/-- A line starting with `# UPDATED:` starts with none of the other tags. -/
lemma sw_updated_excl (l : String) (h : jsStartsWith l "# UPDATED:" = true) :
    jsStartsWith l "# DOMAIN:" = false ∧
    jsStartsWith l "# DOMAIN-SUFFIX:" = false ∧
    jsStartsWith l "# TOTAL:" = false :=
  ⟨jsStartsWith_false_of_mismatch _ _ 3 (by decide) (by decide) (by decide) l h,
   jsStartsWith_false_of_mismatch _ _ 3 (by decide) (by decide) (by decide) l h,
   jsStartsWith_false_of_mismatch _ _ 3 (by decide) (by decide) (by decide) l h⟩

lemma sw_domain_excl (l : String) (h : jsStartsWith l "# DOMAIN:" = true) :
    jsStartsWith l "# UPDATED:" = false :=
  jsStartsWith_false_of_mismatch _ _ 3 (by decide) (by decide) (by decide) l h

lemma sw_domainSuffix_excl (l : String)
    (h : jsStartsWith l "# DOMAIN-SUFFIX:" = true) :
    jsStartsWith l "# UPDATED:" = false ∧ jsStartsWith l "# DOMAIN:" = false :=
  ⟨jsStartsWith_false_of_mismatch _ _ 3 (by decide) (by decide) (by decide) l h,
   jsStartsWith_false_of_mismatch _ _ 9 (by decide) (by decide) (by decide) l h⟩

lemma sw_total_excl (l : String) (h : jsStartsWith l "# TOTAL:" = true) :
    jsStartsWith l "# UPDATED:" = false ∧
    jsStartsWith l "# DOMAIN:" = false ∧
    jsStartsWith l "# DOMAIN-SUFFIX:" = false :=
  ⟨jsStartsWith_false_of_mismatch _ _ 3 (by decide) (by decide) (by decide) l h,
   jsStartsWith_false_of_mismatch _ _ 3 (by decide) (by decide) (by decide) l h,
   jsStartsWith_false_of_mismatch _ _ 3 (by decide) (by decide) (by decide) l h⟩

end UpdateStats

namespace UpdateStats

/-! ## Lemmas about `replaceHeaderLine` and the insertion helpers -/

lemma replaceHeaderLine_of_updated (a : HeaderArgs) (l : String)
    (h : jsStartsWith l "# UPDATED:" = true) :
    replaceHeaderLine a l = updatedLine a := by
  rw [replaceHeaderLine, if_pos h]

lemma replaceHeaderLine_of_domain (a : HeaderArgs) (l : String)
    (h : jsStartsWith l "# DOMAIN:" = true) :
    replaceHeaderLine a l = domainLine a := by
  rw [replaceHeaderLine, if_neg (by simp [sw_domain_excl l h]), if_pos h]

lemma replaceHeaderLine_of_domainSuffix (a : HeaderArgs) (l : String)
    (h : jsStartsWith l "# DOMAIN-SUFFIX:" = true) :
    replaceHeaderLine a l = domainSuffixLine a := by
  rw [replaceHeaderLine, if_neg (by simp [(sw_domainSuffix_excl l h).1]),
    if_neg (by simp [(sw_domainSuffix_excl l h).2]), if_pos h]

lemma replaceHeaderLine_of_total (a : HeaderArgs) (l : String)
    (h : jsStartsWith l "# TOTAL:" = true) :
    replaceHeaderLine a l = totalLine a := by
  rw [replaceHeaderLine, if_neg (by simp [(sw_total_excl l h).1]),
    if_neg (by simp [(sw_total_excl l h).2.1]),
    if_neg (by simp [(sw_total_excl l h).2.2]), if_pos h]

lemma replaceHeaderLine_of_not_tag (a : HeaderArgs) (l : String)
    (h : isHeaderTagLine l = false) : replaceHeaderLine a l = l := by
  rw [isHeaderTagLine] at h
  simp only [Bool.or_eq_false_iff] at h
  rw [replaceHeaderLine, if_neg (by simp [h.1.1.1]), if_neg (by simp [h.1.1.2]),
    if_neg (by simp [h.1.2]), if_neg (by simp [h.2])]

lemma replaceHeaderLine_cases (a : HeaderArgs) (l : String) :
    replaceHeaderLine a l = l ∨ replaceHeaderLine a l = updatedLine a ∨
    replaceHeaderLine a l = domainLine a ∨
    replaceHeaderLine a l = domainSuffixLine a ∨
    replaceHeaderLine a l = totalLine a := by
  rw [replaceHeaderLine]
  split_ifs <;> simp

lemma replaceHeaderLine_updatedLine (a : HeaderArgs) :
    replaceHeaderLine a (updatedLine a) = updatedLine a :=
  replaceHeaderLine_of_updated a _ (updatedLine_sw_updated a)

lemma replaceHeaderLine_domainLine (a : HeaderArgs) :
    replaceHeaderLine a (domainLine a) = domainLine a :=
  replaceHeaderLine_of_domain a _ (domainLine_sw_domain a)

lemma replaceHeaderLine_domainSuffixLine (a : HeaderArgs) :
    replaceHeaderLine a (domainSuffixLine a) = domainSuffixLine a :=
  replaceHeaderLine_of_domainSuffix a _ (domainSuffixLine_sw_domainSuffix a)

lemma replaceHeaderLine_totalLine (a : HeaderArgs) :
    replaceHeaderLine a (totalLine a) = totalLine a :=
  replaceHeaderLine_of_total a _ (totalLine_sw_total a)

/-- `replaceHeaderLine` is idempotent on every line. -/
lemma replaceHeaderLine_idem (a : HeaderArgs) (l : String) :
    replaceHeaderLine a (replaceHeaderLine a l) = replaceHeaderLine a l := by
  rcases replaceHeaderLine_cases a l with h | h | h | h | h <;> rw [h]
  · rw [h]
  · exact replaceHeaderLine_updatedLine a
  · exact replaceHeaderLine_domainLine a
  · exact replaceHeaderLine_domainSuffixLine a
  · exact replaceHeaderLine_totalLine a

lemma mem_spliceInsert {α} (l : List α) (n : Nat) (a x : α) :
    x ∈ spliceInsert l n a ↔ x ∈ l ∨ x = a := by
  rw [spliceInsert]
  constructor
  · intro hx
    rcases List.mem_append.mp hx with hx | hx
    · exact Or.inl (List.take_subset n l hx)
    · rcases List.mem_cons.mp hx with rfl | hx
      · exact Or.inr rfl
      · exact Or.inl (List.drop_subset n l hx)
  · intro hx
    rcases hx with hx | rfl
    · conv at hx => rw [← List.take_append_drop n l]
      rcases List.mem_append.mp hx with hx | hx
      · exact List.mem_append.mpr (Or.inl hx)
      · exact List.mem_append.mpr (Or.inr (List.mem_cons_of_mem _ hx))
    · exact List.mem_append.mpr (Or.inr (List.mem_cons_self _ _))

lemma length_spliceInsert {α} (l : List α) (n : Nat) (a : α) :
    (spliceInsert l n a).length = l.length + 1 := by
  rw [spliceInsert]
  simp only [List.length_append, List.length_take, List.length_cons,
    List.length_drop]
  omega

lemma mem_insertMissing {f : Bool} {n : Nat} {y x : String} {out : List String}
    (hx : x ∈ insertMissing f n y out) : x ∈ out ∨ x = y := by
  rw [insertMissing] at hx
  split at hx
  · exact Or.inl hx
  · exact (mem_spliceInsert out n y x).mp hx

lemma insertMissing_sub {f : Bool} {n : Nat} {y x : String}
    {out : List String} (hx : x ∈ out) : x ∈ insertMissing f n y out := by
  rw [insertMissing]
  split
  · exact hx
  · exact (mem_spliceInsert out n y x).mpr (Or.inl hx)

lemma insertMissing_self {f : Bool} {n : Nat} {y : String} {out : List String}
    (h : f = false) : y ∈ insertMissing f n y out := by
  rw [insertMissing, h, if_neg (by simp)]
  exact (mem_spliceInsert out n y y).mpr (Or.inr rfl)

lemma insertMissing_of_true {n : Nat} {y : String} {out : List String} :
    insertMissing true n y out = out := rfl

lemma mem_insertUpdatedIfMissing {f : Bool} {a : HeaderArgs} {x : String}
    {out : List String} (hx : x ∈ insertUpdatedIfMissing f a out) :
    x ∈ out ∨ x = updatedLine a := by
  rw [insertUpdatedIfMissing] at hx
  split at hx
  · exact Or.inl hx
  · exact (mem_spliceInsert out _ _ x).mp hx

lemma insertUpdatedIfMissing_sub {f : Bool} {a : HeaderArgs} {x : String}
    {out : List String} (hx : x ∈ out) : x ∈ insertUpdatedIfMissing f a out := by
  rw [insertUpdatedIfMissing]
  split
  · exact hx
  · exact (mem_spliceInsert out _ _ x).mpr (Or.inl hx)

lemma insertUpdatedIfMissing_self {a : HeaderArgs} {out : List String} :
    updatedLine a ∈ insertUpdatedIfMissing false a out := by
  rw [insertUpdatedIfMissing, if_neg (by simp)]
  exact (mem_spliceInsert out _ _ _).mpr (Or.inr rfl)

lemma insertUpdatedIfMissing_of_true {a : HeaderArgs} {out : List String} :
    insertUpdatedIfMissing true a out = out := rfl

end UpdateStats

namespace UpdateStats

/-! ## Digit rendering lemmas -/

lemma digitChar_isDigit (n : Nat) : (digitChar n).isDigit = true := by
  rw [digitChar]
  split_ifs <;> decide

lemma natDigitsAux_isDigit (fuel n : Nat) :
    ∀ c ∈ natDigitsAux fuel n, c.isDigit = true := by
  induction fuel generalizing n with
  | zero => intro c hc; simp [natDigitsAux] at hc
  | succ fuel ih =>
    intro c hc
    rw [natDigitsAux] at hc
    split_ifs at hc
    · simp only [List.mem_singleton] at hc
      subst hc
      exact digitChar_isDigit n
    · rcases List.mem_append.mp hc with hc | hc
      · exact ih (n / 10) c hc
      · simp only [List.mem_singleton] at hc
        subst hc
        exact digitChar_isDigit _

lemma natDigits_isDigit (n : Nat) : ∀ c ∈ natDigits n, c.isDigit = true :=
  natDigitsAux_isDigit (n + 1) n

lemma natDigits_ne_nil (n : Nat) : natDigits n ≠ [] := by
  rw [natDigits, natDigitsAux]
  split_ifs <;> simp

lemma ne_of_isDigit_of_not (c x : Char) (h : c.isDigit = true)
    (hx : x.isDigit = false) : c ≠ x := by
  intro e
  rw [e, hx] at h
  exact Bool.false_ne_true h

/-! ## Cleanliness of the canonical header lines -/

/-- A line is clean when it contains no line feed and does not end in a
carriage return; clean lines survive the `join('\n')`/`split(/\r?\n/)`
round trip. -/
def CleanLine (l : String) : Prop :=
  '\n' ∉ l.data ∧ l.data.getLast? ≠ some '\r'

lemma cleanLine_append_of_data (base : String) (u : List Char)
    (hb : '\n' ∉ base.data) (hbl : base.data.getLast? ≠ some '\r')
    (hu1 : '\n' ∉ u) (hu2 : ∀ c ∈ u, c ≠ '\r') :
    CleanLine ⟨base.data ++ u⟩ := by
  constructor
  · intro hmem
    rcases List.mem_append.mp hmem with h | h
    · exact hb h
    · exact hu1 h
  · rw [List.getLast?_append]
    cases hu : u.getLast? with
    | none => simpa [hu] using hbl
    | some c =>
      simp only [hu, Option.or_some, ne_eq, Option.some.injEq]
      exact hu2 c (List.mem_of_mem_getLast? hu)

lemma cleanLine_updatedLine (a : HeaderArgs) (hr : '\r' ∉ a.updatedAt.data)
    (hn : '\n' ∉ a.updatedAt.data) : CleanLine (updatedLine a) := by
  have : updatedLine a = ⟨("# UPDATED: " : String).data ++ a.updatedAt.data⟩ := by
    rw [updatedLine]
    cases a.updatedAt
    rfl
  rw [this]
  exact cleanLine_append_of_data _ _ (by decide) (by decide) hn
    (fun c hc e => hr (e ▸ hc))

lemma cleanLine_nat_header (base : String) (n : Nat)
    (hb : '\n' ∉ base.data) (hbl : base.data.getLast? ≠ some '\r') :
    CleanLine ⟨base.data ++ natDigits n⟩ := by
  refine cleanLine_append_of_data base _ hb hbl ?_ ?_
  · intro h
    have := natDigits_isDigit n '\n' h
    exact absurd this (by decide)
  · intro c hc
    exact ne_of_isDigit_of_not c '\r' (natDigits_isDigit n c hc) (by decide)

lemma cleanLine_domainLine (a : HeaderArgs) : CleanLine (domainLine a) := by
  have : domainLine a =
      ⟨("# DOMAIN: " : String).data ++ natDigits a.domainCount⟩ := rfl
  rw [this]
  exact cleanLine_nat_header _ _ (by decide) (by decide)

lemma cleanLine_domainSuffixLine (a : HeaderArgs) :
    CleanLine (domainSuffixLine a) := by
  have : domainSuffixLine a =
      ⟨("# DOMAIN-SUFFIX: " : String).data ++ natDigits a.domainSuffixCount⟩ :=
    rfl
  rw [this]
  exact cleanLine_nat_header _ _ (by decide) (by decide)

lemma cleanLine_totalLine (a : HeaderArgs) : CleanLine (totalLine a) := by
  have : totalLine a = ⟨("# TOTAL: " : String).data ++ natDigits a.total⟩ := rfl
  rw [this]
  exact cleanLine_nat_header _ _ (by decide) (by decide)

end UpdateStats

namespace UpdateStats

/-! ## Structure of `updateListHeaderLines` -/

lemma mem_updateListHeaderLines (content : String) (a : HeaderArgs)
    (l : String) (hl : l ∈ updateListHeaderLines content a) :
    (∃ l₀ ∈ splitLines content, l = replaceHeaderLine a l₀) ∨
    l = updatedLine a ∨ l = domainLine a ∨ l = domainSuffixLine a ∨
    l = totalLine a := by
  simp only [updateListHeaderLines] at hl
  rcases mem_insertMissing hl with hl | rfl
  · rcases mem_insertMissing hl with hl | rfl
    · rcases mem_insertMissing hl with hl | rfl
      · rcases mem_insertUpdatedIfMissing hl with hl | rfl
        · rcases List.mem_map.mp hl with ⟨l₀, hmem, heq⟩
          exact Or.inl ⟨l₀, hmem, heq.symm⟩
        · exact Or.inr (Or.inl rfl)
      · exact Or.inr (Or.inr (Or.inl rfl))
    · exact Or.inr (Or.inr (Or.inr (Or.inl rfl)))
  · exact Or.inr (Or.inr (Or.inr (Or.inr rfl)))

lemma updatedLine_mem_out (content : String) (a : HeaderArgs) :
    updatedLine a ∈ updateListHeaderLines content a := by
  simp only [updateListHeaderLines]
  apply insertMissing_sub
  apply insertMissing_sub
  apply insertMissing_sub
  cases hU : (splitLines content).any (fun l => jsStartsWith l "# UPDATED:") with
  | false => exact insertUpdatedIfMissing_self
  | true =>
    apply insertUpdatedIfMissing_sub
    rcases List.any_eq_true.mp hU with ⟨l₀, hm, hsw⟩
    exact List.mem_map.mpr ⟨l₀, hm, replaceHeaderLine_of_updated a l₀ hsw⟩

lemma domainLine_mem_out (content : String) (a : HeaderArgs) :
    domainLine a ∈ updateListHeaderLines content a := by
  simp only [updateListHeaderLines]
  apply insertMissing_sub
  apply insertMissing_sub
  cases hD : (splitLines content).any (fun l => jsStartsWith l "# DOMAIN:") with
  | false => exact insertMissing_self rfl
  | true =>
    apply insertMissing_sub
    apply insertUpdatedIfMissing_sub
    rcases List.any_eq_true.mp hD with ⟨l₀, hm, hsw⟩
    exact List.mem_map.mpr ⟨l₀, hm, replaceHeaderLine_of_domain a l₀ hsw⟩

lemma domainSuffixLine_mem_out (content : String) (a : HeaderArgs) :
    domainSuffixLine a ∈ updateListHeaderLines content a := by
  simp only [updateListHeaderLines]
  apply insertMissing_sub
  cases hS : (splitLines content).any
      (fun l => jsStartsWith l "# DOMAIN-SUFFIX:") with
  | false => exact insertMissing_self rfl
  | true =>
    apply insertMissing_sub
    apply insertMissing_sub
    apply insertUpdatedIfMissing_sub
    rcases List.any_eq_true.mp hS with ⟨l₀, hm, hsw⟩
    exact List.mem_map.mpr ⟨l₀, hm, replaceHeaderLine_of_domainSuffix a l₀ hsw⟩

lemma totalLine_mem_out (content : String) (a : HeaderArgs) :
    totalLine a ∈ updateListHeaderLines content a := by
  simp only [updateListHeaderLines]
  cases hT : (splitLines content).any (fun l => jsStartsWith l "# TOTAL:") with
  | false => exact insertMissing_self rfl
  | true =>
    apply insertMissing_sub
    apply insertMissing_sub
    apply insertMissing_sub
    apply insertUpdatedIfMissing_sub
    rcases List.any_eq_true.mp hT with ⟨l₀, hm, hsw⟩
    exact List.mem_map.mpr ⟨l₀, hm, replaceHeaderLine_of_total a l₀ hsw⟩

lemma updateListHeaderLines_ne_nil (content : String) (a : HeaderArgs) :
    updateListHeaderLines content a ≠ [] :=
  fun h => by
    have := updatedLine_mem_out content a
    rw [h] at this
    exact List.not_mem_nil _ this

/-- Every line of the rewritten list is clean, provided the input's lines do
not end in a carriage return and the timestamp contains neither CR nor LF. -/
lemma clean_updateListHeaderLines (content : String) (a : HeaderArgs)
    (hc : ∀ l ∈ splitLines content, l.data.getLast? ≠ some '\r')
    (hr : '\r' ∉ a.updatedAt.data) (hn : '\n' ∉ a.updatedAt.data) :
    ∀ l ∈ updateListHeaderLines content a, CleanLine l := by
  intro l hl
  rcases mem_updateListHeaderLines content a l hl with ⟨l₀, hm, rfl⟩ | rfl |
    rfl | rfl | rfl
  · rcases replaceHeaderLine_cases a l₀ with h | h | h | h | h <;> rw [h]
    · exact ⟨splitLines_no_lf content l₀ hm, hc l₀ hm⟩
    · exact cleanLine_updatedLine a hr hn
    · exact cleanLine_domainLine a
    · exact cleanLine_domainSuffixLine a
    · exact cleanLine_totalLine a
  · exact cleanLine_updatedLine a hr hn
  · exact cleanLine_domainLine a
  · exact cleanLine_domainSuffixLine a
  · exact cleanLine_totalLine a

end UpdateStats

namespace UpdateStats

/-- Applying the header rewrite to its own output changes nothing at the line
level: all four tags are now present (so nothing is inserted) and every line
is a fixed point of the replacement loop. -/
lemma updateListHeader_second_pass (content : String) (a : HeaderArgs)
    (hc : ∀ l ∈ splitLines content, l.data.getLast? ≠ some '\r')
    (hr : '\r' ∉ a.updatedAt.data) (hn : '\n' ∉ a.updatedAt.data) :
    updateListHeaderLines (updateListHeader content a) a =
      updateListHeaderLines content a := by
  have hclean := clean_updateListHeaderLines content a hc hr hn
  have hsplit : splitLines (updateListHeader content a) =
      updateListHeaderLines content a := by
    rw [updateListHeader]
    exact splitLines_joinNL _ (updateListHeaderLines_ne_nil content a)
      (fun l hl => hclean l hl)
  have hmap : (updateListHeaderLines content a).map (replaceHeaderLine a) =
      updateListHeaderLines content a :=
    map_fix _ _ (fun x hx => by
      rcases mem_updateListHeaderLines content a x hx with
        ⟨l₀, _, rfl⟩ | rfl | rfl | rfl | rfl
      · exact replaceHeaderLine_idem a l₀
      · exact replaceHeaderLine_updatedLine a
      · exact replaceHeaderLine_domainLine a
      · exact replaceHeaderLine_domainSuffixLine a
      · exact replaceHeaderLine_totalLine a)
  have hU : (updateListHeaderLines content a).any
      (fun l => jsStartsWith l "# UPDATED:") = true :=
    List.any_eq_true.mpr
      ⟨updatedLine a, updatedLine_mem_out content a, updatedLine_sw_updated a⟩
  have hD : (updateListHeaderLines content a).any
      (fun l => jsStartsWith l "# DOMAIN:") = true :=
    List.any_eq_true.mpr
      ⟨domainLine a, domainLine_mem_out content a, domainLine_sw_domain a⟩
  have hS : (updateListHeaderLines content a).any
      (fun l => jsStartsWith l "# DOMAIN-SUFFIX:") = true :=
    List.any_eq_true.mpr ⟨domainSuffixLine a, domainSuffixLine_mem_out content a,
      domainSuffixLine_sw_domainSuffix a⟩
  have hT : (updateListHeaderLines content a).any
      (fun l => jsStartsWith l "# TOTAL:") = true :=
    List.any_eq_true.mpr
      ⟨totalLine a, totalLine_mem_out content a, totalLine_sw_total a⟩
  conv_lhs => rw [updateListHeaderLines]
  rw [hsplit, hmap, hU, hD, hS, hT, insertUpdatedIfMissing_of_true,
    insertMissing_of_true, insertMissing_of_true, insertMissing_of_true]

end UpdateStats

namespace UpdateStats

/-! ## Counter lemmas -/

/-- The sum of all per-category counts. -/
def sumCounts (m : List (String × Nat)) : Nat := (m.map Prod.snd).sum

lemma sumCounts_bump (m : List (String × Nat)) (k : String) :
    sumCounts (bump m k) = sumCounts m + 1 := by
  induction m with
  | nil => rfl
  | cons p rest ih =>
    obtain ⟨k', v⟩ := p
    rw [bump]
    split_ifs
    · simp only [sumCounts, List.map_cons, List.sum_cons]
      omega
    · simp only [sumCounts, List.map_cons, List.sum_cons] at ih ⊢
      omega

lemma str_eq_empty_iff (s : String) : s = "" ↔ s.data = [] := by
  constructor
  · intro h
    rw [h]
  · intro h
    have h2 := congrArg (fun d => (⟨d⟩ : String)) h
    simpa [strMk_data] using h2

lemma countStep_sum (m : List (String × Nat)) (t : Nat) (l : String)
    (h : sumCounts m = t) :
    sumCounts (countStep (m, t) l).1 = (countStep (m, t) l).2 := by
  rw [countStep]
  split_ifs
  · exact h
  · exact h
  · simpa [sumCounts_bump] using h

lemma foldl_countStep_sum (ls : List String) (m : List (String × Nat)) (t : Nat)
    (h : sumCounts m = t) :
    sumCounts ((ls.foldl countStep (m, t)).1) = (ls.foldl countStep (m, t)).2 := by
  induction ls generalizing m t with
  | nil => exact h
  | cons l rest ih =>
    rw [List.foldl_cons]
    have hp := countStep_sum m t l h
    have := ih (countStep (m, t) l).1 (countStep (m, t) l).2 hp
    simpa using this

lemma foldl_countStep_total (ls : List String) (m : List (String × Nat))
    (t : Nat) : (ls.foldl countStep (m, t)).2 =
      t + ls.countP (fun l => isRuleLine l && !(extractType l == "")) := by
  induction ls generalizing m t with
  | nil => simp
  | cons l rest ih =>
    rw [List.foldl_cons, List.countP_cons]
    cases hR : isRuleLine l with
    | false =>
      have hstep : countStep (m, t) l = (m, t) := by rw [countStep, hR]; rfl
      rw [hstep, ih m t]
      simp [hR]
    | true =>
      cases hT : extractType l == "" with
      | true =>
        have hT' : extractType l = "" := by simpa using hT
        have hstep : countStep (m, t) l = (m, t) := by
          rw [countStep, hR]
          simp [hT']
        rw [hstep, ih m t]
        simp [hR, hT']
      | false =>
        have hT' : ¬ extractType l = "" := by simpa using hT
        have hstep : countStep (m, t) l = (bump m (extractType l), t + 1) := by
          rw [countStep, hR]
          simp [hT']
        rw [hstep]
        have h5 := ih (bump m (extractType l)) (t + 1)
        rw [h5]
        simp [hR, hT]
        omega

/-- The source's rule-entry test, phrased as the specification words it: the
trimmed line is non-empty and does not start with `#`. -/
lemma isRuleLine_eq (l : String) :
    isRuleLine l = (!(jsTrim l == "") && !jsStartsWith (jsTrim l) "#") := by
  rw [isRuleLine]
  split_ifs with h1 h2 h3
  · subst h1
    decide
  · have : jsTrim l = "" := by
      rw [str_eq_empty_iff]
      have : (jsTrim l).data.length = 0 := h2
      exact List.length_eq_zero.mp this
    simp [this]
  · have he : ¬ jsTrim l = "" := by
      rw [str_eq_empty_iff]
      intro hd
      exact h2 (by simp [String.length, hd])
    simp [h3, he]
  · have he : ¬ jsTrim l = "" := by
      rw [str_eq_empty_iff]
      intro hd
      exact h2 (by simp [String.length, hd])
    simp [h3, he]

/-- Category extraction via `indexOf`/`slice` agrees with taking the longest
comma-free leading segment. -/
lemma take_jsIndexOf (c : Char) (l : List Char) :
    (match jsIndexOfChar c l with
     | none => l
     | some i => l.take i) = l.takeWhile (fun x => !(x == c)) := by
  induction l with
  | nil => rfl
  | cons a rest ih =>
    rw [jsIndexOfChar]
    by_cases ha : a = c
    · subst ha
      simp
    · rw [if_neg ha]
      cases h : jsIndexOfChar c rest with
      | none =>
        rw [h] at ih
        simp [List.takeWhile_cons, ha, ← ih]
      | some i =>
        rw [h] at ih
        simp [List.takeWhile_cons, ha, ← ih, List.take_succ_cons]

lemma extractType_eq (line : String) :
    extractType line = jsTrim ⟨line.data.takeWhile (fun c => !(c == ','))⟩ := by
  rw [extractType]
  have h := take_jsIndexOf ',' line.data
  cases hidx : jsIndexOfChar ',' line.data with
  | none =>
    rw [hidx] at h
    rw [← h, strMk_data]
  | some i =>
    rw [hidx] at h
    rw [← h]

lemma jsIndexOfChar_eq_none (c : Char) (l : List Char) (h : c ∉ l) :
    jsIndexOfChar c l = none := by
  induction l with
  | nil => rfl
  | cons a rest ih =>
    simp only [List.mem_cons, not_or] at h
    rw [jsIndexOfChar, if_neg (fun e => h.1 e.symm), ih h.2]
    rfl

lemma extractType_no_comma (line : String) (h : ',' ∉ line.data) :
    extractType line = jsTrim line := by
  rw [extractType, jsIndexOfChar_eq_none ',' line.data h]

lemma countStep_skip (acc : List (String × Nat) × Nat) (l : String)
    (h : extractType l = "") : countStep acc l = acc := by
  rw [countStep]
  split_ifs with h1
  · rfl
  · rfl

end UpdateStats

namespace UpdateStats

/-! ## Frame lemmas: non-header lines pass through -/

lemma isHeaderTagLine_updatedLine (a : HeaderArgs) :
    isHeaderTagLine (updatedLine a) = true := by
  simp [isHeaderTagLine, updatedLine_sw_updated]

lemma isHeaderTagLine_domainLine (a : HeaderArgs) :
    isHeaderTagLine (domainLine a) = true := by
  simp [isHeaderTagLine, domainLine_sw_domain]

lemma isHeaderTagLine_domainSuffixLine (a : HeaderArgs) :
    isHeaderTagLine (domainSuffixLine a) = true := by
  simp [isHeaderTagLine, domainSuffixLine_sw_domainSuffix]

lemma isHeaderTagLine_totalLine (a : HeaderArgs) :
    isHeaderTagLine (totalLine a) = true := by
  simp [isHeaderTagLine, totalLine_sw_total]

lemma isHeaderTagLine_replaceHeaderLine (a : HeaderArgs) (l : String)
    (h : isHeaderTagLine l = true) :
    isHeaderTagLine (replaceHeaderLine a l) = true := by
  rw [replaceHeaderLine]
  split_ifs with h1 h2 h3 h4
  · exact isHeaderTagLine_updatedLine a
  · exact isHeaderTagLine_domainLine a
  · exact isHeaderTagLine_domainSuffixLine a
  · exact isHeaderTagLine_totalLine a
  · rw [isHeaderTagLine] at h
    simp [h1, h2, h3, h4] at h

lemma filter_nonheader_map (a : HeaderArgs) (lines : List String) :
    (lines.map (replaceHeaderLine a)).filter (fun l => !isHeaderTagLine l) =
      lines.filter (fun l => !isHeaderTagLine l) := by
  induction lines with
  | nil => rfl
  | cons l rest ih =>
    simp only [List.map_cons, List.filter_cons]
    cases hb : isHeaderTagLine l with
    | true =>
      have h2 := isHeaderTagLine_replaceHeaderLine a l hb
      simp [hb, h2, ih]
    | false =>
      have h2 := replaceHeaderLine_of_not_tag a l hb
      simp [hb, h2, ih]

lemma filter_spliceInsert (l : List String) (n : Nat) (y : String)
    (p : String → Bool) (hy : p y = false) :
    (spliceInsert l n y).filter p = l.filter p := by
  rw [spliceInsert, List.filter_append, List.filter_cons, hy]
  rw [if_neg (by simp), ← List.filter_append, List.take_append_drop]

lemma filter_insertMissing (f : Bool) (n : Nat) (y : String)
    (out : List String) (p : String → Bool) (hy : p y = false) :
    (insertMissing f n y out).filter p = out.filter p := by
  rw [insertMissing]
  split
  · rfl
  · exact filter_spliceInsert out n y p hy

lemma filter_insertUpdatedIfMissing (f : Bool) (a : HeaderArgs)
    (out : List String) (p : String → Bool) (hy : p (updatedLine a) = false) :
    (insertUpdatedIfMissing f a out).filter p = out.filter p := by
  rw [insertUpdatedIfMissing]
  split
  · rfl
  · exact filter_spliceInsert out _ _ p hy

/-- The non-header lines of the rewritten list are exactly the non-header
lines of the input, in order. -/
lemma filter_updateListHeaderLines (content : String) (a : HeaderArgs) :
    (updateListHeaderLines content a).filter (fun l => !isHeaderTagLine l) =
      (splitLines content).filter (fun l => !isHeaderTagLine l) := by
  simp only [updateListHeaderLines]
  rw [filter_insertMissing _ _ _ _ _ (by simp [isHeaderTagLine_totalLine]),
    filter_insertMissing _ _ _ _ _ (by simp [isHeaderTagLine_domainSuffixLine]),
    filter_insertMissing _ _ _ _ _ (by simp [isHeaderTagLine_domainLine]),
    filter_insertUpdatedIfMissing _ _ _ _
      (by simp [isHeaderTagLine_updatedLine]),
    filter_nonheader_map]

/-! ## Fixed-index insertion lemmas -/

lemma jsFindIndex_lt_length {α} (p : α → Bool) (l : List α) (i : Nat)
    (h : jsFindIndex p l = some i) : i < l.length := by
  induction l generalizing i with
  | nil => simp [jsFindIndex] at h
  | cons a rest ih =>
    rw [jsFindIndex] at h
    split_ifs at h
    · simp only [Option.some.injEq] at h
      subst h
      simp
    · cases h2 : jsFindIndex p rest with
      | none => rw [h2] at h; simp at h
      | some j =>
        rw [h2] at h
        simp at h
        have := ih j h2
        simp only [List.length_cons]
        omega

lemma jsFindIndex_congr {α} (p q : α → Bool) (l : List α)
    (h : ∀ x, p x = q x) : jsFindIndex p l = jsFindIndex q l := by
  induction l with
  | nil => rfl
  | cons a rest ih => rw [jsFindIndex, jsFindIndex, h a, ih]

lemma spliceInsert_eq_insertIdx {α} (l : List α) (n : Nat) (a : α)
    (h : n ≤ l.length) : spliceInsert l n a = List.insertIdx n a l := by
  induction l generalizing n with
  | nil =>
    have : n = 0 := by simpa using h
    subst this
    rfl
  | cons x t ih =>
    cases n with
    | zero => rfl
    | succ n =>
      rw [List.insertIdx_succ_cons, ← ih n (by simpa using h)]
      rfl

end UpdateStats

namespace UpdateStats

/-- When no header tag is present in the input, the rewrite reduces to the
four insertions: `UPDATED` after the first non-blank line, then the fixed
splices at indices 2, 3 and 4. -/
lemma updateListHeaderLines_no_tags (content : String) (a : HeaderArgs)
    (h : ∀ l ∈ splitLines content, isHeaderTagLine l = false) :
    updateListHeaderLines content a =
      spliceInsert (spliceInsert (spliceInsert
        (spliceInsert (splitLines content)
          (match jsFindIndex (fun l => 0 < (jsTrim l).length)
              (splitLines content) with
           | none => 0
           | some i => min (i + 1) (splitLines content).length)
          (updatedLine a)) 2 (domainLine a)) 3 (domainSuffixLine a)) 4
        (totalLine a) := by
  have hcomp : ∀ l ∈ splitLines content,
      jsStartsWith l "# UPDATED:" = false ∧ jsStartsWith l "# DOMAIN:" = false ∧
      jsStartsWith l "# DOMAIN-SUFFIX:" = false ∧
      jsStartsWith l "# TOTAL:" = false := by
    intro l hl
    have h2 := h l hl
    rw [isHeaderTagLine] at h2
    simp only [Bool.or_eq_false_iff] at h2
    tauto
  have hU : (splitLines content).any (fun l => jsStartsWith l "# UPDATED:") =
      false := any_false _ _ (fun x hx => (hcomp x hx).1)
  have hD : (splitLines content).any (fun l => jsStartsWith l "# DOMAIN:") =
      false := any_false _ _ (fun x hx => (hcomp x hx).2.1)
  have hS : (splitLines content).any
      (fun l => jsStartsWith l "# DOMAIN-SUFFIX:") = false :=
    any_false _ _ (fun x hx => (hcomp x hx).2.2.1)
  have hT : (splitLines content).any (fun l => jsStartsWith l "# TOTAL:") =
      false := any_false _ _ (fun x hx => (hcomp x hx).2.2.2)
  have hmap : (splitLines content).map (replaceHeaderLine a) =
      splitLines content :=
    map_fix _ _ (fun x hx => replaceHeaderLine_of_not_tag a x (h x hx))
  simp only [updateListHeaderLines, hU, hD, hS, hT, hmap, insertMissing,
    insertUpdatedIfMissing, Bool.false_eq_true, if_false]

end UpdateStats

namespace UpdateStats

/-! ## Character-class lemmas for the README table-row matcher -/

lemma isDigit_bounds (c : Char) (h : c.isDigit = true) :
    48 ≤ c.toNat ∧ c.toNat ≤ 57 := by
  rw [Char.isDigit] at h
  simp only [Bool.and_eq_true, decide_eq_true_eq] at h
  exact ⟨h.1, h.2⟩

lemma isJsSpace_eq_false_of_isDigit (c : Char) (h : c.isDigit = true) :
    isJsSpace c = false := by
  have hb := isDigit_bounds c h
  rw [isJsSpace]
  simp only [Bool.or_eq_false_iff, beq_eq_false_iff_ne, ne_eq,
    Bool.and_eq_false_iff, decide_eq_false_iff_not, not_le]
  omega

lemma isDigit_eq_false_of_isJsSpace (c : Char) (h : isJsSpace c = true) :
    c.isDigit = false := by
  cases hd : c.isDigit with
  | false => rfl
  | true =>
    rw [isJsSpace_eq_false_of_isDigit c hd] at h
    exact absurd h (by simp)

lemma dropWhile_append_all {p : Char → Bool} {xs : List Char}
    (h : ∀ c ∈ xs, p c = true) (ys : List Char) :
    (xs ++ ys).dropWhile p = ys.dropWhile p := by
  induction xs with
  | nil => rfl
  | cons c t ih =>
    rw [List.cons_append, List.dropWhile_cons_of_pos (by simp [h c])]
    exact ih (fun x hx => h x (by simp [hx]))

lemma takeWhile_append_all {p : Char → Bool} {xs : List Char}
    (h : ∀ c ∈ xs, p c = true) (ys : List Char) :
    (xs ++ ys).takeWhile p = xs ++ ys.takeWhile p := by
  induction xs with
  | nil => rfl
  | cons c t ih =>
    rw [List.cons_append, List.takeWhile_cons_of_pos (by simp [h c]),
      ih (fun x hx => h x (by simp [hx])), List.cons_append]

lemma isPrefixOf_append_self (k rest : List Char) :
    k.isPrefixOf (k ++ rest) = true :=
  (isPrefixOf_true k (k ++ rest)).mpr ⟨rest, rfl⟩

end UpdateStats

namespace UpdateStats

/-- Any line of the shape `| <spaces> KEY <spaces> | <spaces> <digits>
<spaces> |` is accepted by the table-row matcher. -/
lemma matchesRow_of_shape (key : String) (kc : Char) (kt : List Char)
    (hkd : key.data = kc :: kt) (hkc : isJsSpace kc = false)
    (w1 w2 w3 w4 : List Char) (d : Char) (dt : List Char)
    (hw1 : ∀ c ∈ w1, isJsSpace c = true) (hw2 : ∀ c ∈ w2, isJsSpace c = true)
    (hw3 : ∀ c ∈ w3, isJsSpace c = true) (hw4 : ∀ c ∈ w4, isJsSpace c = true)
    (hdsd : ∀ c ∈ d :: dt, c.isDigit = true)
    (line : String)
    (hline : line.data =
      '|' :: (w1 ++ (key.data ++ (w2 ++
        ('|' :: (w3 ++ ((d :: dt) ++ (w4 ++ ['|'])))))))) :
    matchesRow key line = true := by
  rw [matchesRow, hline]
  simp only [List.head?_cons, beq_self_eq_true, if_true, List.tail_cons]
  have e1 : (w1 ++ (key.data ++ (w2 ++
      ('|' :: (w3 ++ ((d :: dt) ++ (w4 ++ ['|']))))))).dropWhile isJsSpace =
      key.data ++ (w2 ++ ('|' :: (w3 ++ ((d :: dt) ++ (w4 ++ ['|']))))) := by
    rw [dropWhile_append_all hw1, hkd, List.cons_append,
      List.dropWhile_cons_of_neg (by simp [hkc]), ← List.cons_append]
  have e2 : (w2 ++ ('|' :: (w3 ++ ((d :: dt) ++
      (w4 ++ ['|']))))).dropWhile isJsSpace =
      '|' :: (w3 ++ ((d :: dt) ++ (w4 ++ ['|']))) := by
    rw [dropWhile_append_all hw2, List.dropWhile_cons_of_neg (by decide)]
  have e3 : (w3 ++ ((d :: dt) ++ (w4 ++ ['|']))).dropWhile isJsSpace =
      (d :: dt) ++ (w4 ++ ['|']) := by
    rw [dropWhile_append_all hw3, List.cons_append,
      List.dropWhile_cons_of_neg
        (by simp [isJsSpace_eq_false_of_isDigit d (hdsd d (by simp))]),
      ← List.cons_append]
  have e4 : ((d :: dt) ++ (w4 ++ ['|'])).takeWhile Char.isDigit = d :: dt := by
    rw [takeWhile_append_all hdsd]
    have e5 : (w4 ++ ['|']).takeWhile Char.isDigit = [] := by
      cases w4 with
      | nil => rw [List.nil_append, List.takeWhile_cons_of_neg (by decide)]
      | cons c t =>
        rw [List.cons_append, List.takeWhile_cons_of_neg
          (by simp [isDigit_eq_false_of_isJsSpace c (hw4 c (by simp))])]
    rw [e5, List.append_nil]
  have e6 : ((d :: dt) ++ (w4 ++ ['|'])).drop (d :: dt).length =
      w4 ++ ['|'] := List.drop_left _ _
  have e7 : (w4 ++ ['|']).dropWhile isJsSpace = ['|'] := by
    rw [dropWhile_append_all hw4, List.dropWhile_cons_of_neg (by decide)]
  rw [matchesRowTail]
  simp only [e1, isPrefixOf_append_self, if_true, List.drop_left, e2,
    List.head?_cons, beq_self_eq_true, List.tail_cons, e3, e4,
    List.isEmpty_cons, e6, e7, beq_self_eq_true, if_false,
    Bool.false_eq_true]

end UpdateStats

namespace UpdateStats

lemma matchesRow_false_of_head (key : String) (kc : Char) (kt : List Char)
    (hkd : key.data = kc :: kt) (line : String) (w1 : List Char) (c2 : Char)
    (t2 : List Char) (hw1 : ∀ c ∈ w1, isJsSpace c = true)
    (hc2 : isJsSpace c2 = false)
    (hline : line.data = '|' :: (w1 ++ (c2 :: t2))) (hne : kc ≠ c2) :
    matchesRow key line = false := by
  rw [matchesRow, hline]
  simp only [List.head?_cons, beq_self_eq_true, if_true, List.tail_cons]
  rw [matchesRowTail]
  have e1 : (w1 ++ (c2 :: t2)).dropWhile isJsSpace = c2 :: t2 := by
    rw [dropWhile_append_all hw1, List.dropWhile_cons_of_neg (by simp [hc2])]
  have e2 : key.data.isPrefixOf (c2 :: t2) = false := by
    rw [hkd]
    simp [List.isPrefixOf, hne]
  simp only [e1, e2, Bool.false_eq_true, if_false]

/-- On a `DOMAIN-SUFFIX` table row the `DOMAIN` regex fails: after the literal
`DOMAIN` the next character is `-`, not whitespace or `|`. -/
lemma matchesRow_domain_on_suffix_shape (w1 w2 w3 w4 : List Char) (d : Char)
    (dt : List Char) (hw1 : ∀ c ∈ w1, isJsSpace c = true) (line : String)
    (hline : line.data =
      '|' :: (w1 ++ (("DOMAIN-SUFFIX" : String).data ++ (w2 ++
        ('|' :: (w3 ++ ((d :: dt) ++ (w4 ++ ['|'])))))))) :
    matchesRow "DOMAIN" line = false := by
  rw [matchesRow, hline]
  simp only [List.head?_cons, beq_self_eq_true, if_true, List.tail_cons]
  rw [matchesRowTail]
  have esplit : ("DOMAIN-SUFFIX" : String).data =
      ("DOMAIN" : String).data ++ ("-SUFFIX" : String).data := rfl
  have e1 : (w1 ++ (("DOMAIN-SUFFIX" : String).data ++ (w2 ++
      ('|' :: (w3 ++ ((d :: dt) ++ (w4 ++ ['|']))))))).dropWhile isJsSpace =
      ("DOMAIN" : String).data ++ (("-SUFFIX" : String).data ++ (w2 ++
      ('|' :: (w3 ++ ((d :: dt) ++ (w4 ++ ['|'])))))) := by
    rw [dropWhile_append_all hw1, esplit, List.append_assoc]
    show List.dropWhile isJsSpace ('D' :: _) = _
    rw [List.dropWhile_cons_of_neg (by decide)]
    rfl
  have e2 : (("-SUFFIX" : String).data ++ (w2 ++
      ('|' :: (w3 ++ ((d :: dt) ++ (w4 ++ ['|'])))))).dropWhile isJsSpace =
      '-' :: (("SUFFIX" : String).data ++ (w2 ++
      ('|' :: (w3 ++ ((d :: dt) ++ (w4 ++ ['|'])))))) := by
    show List.dropWhile isJsSpace ('-' :: _) = _
    rw [List.dropWhile_cons_of_neg (by decide)]
    rfl
  simp only [e1, isPrefixOf_append_self, if_true, List.drop_left, e2,
    List.head?_cons]
  rw [if_neg (by decide)]

/-- A line whose first character differs from the first character of `pre`
does not start with `pre`. -/
lemma jsStartsWith_false_head (s pre : String) (c : Char) (ct : List Char)
    (c2 : Char) (t2 : List Char) (hpre : pre.data = c :: ct)
    (hs : s.data = c2 :: t2) (h : c ≠ c2) : jsStartsWith s pre = false := by
  rw [jsStartsWith, hpre, hs]
  simp [List.isPrefixOf, h]

lemma updatedAtLabel_data :
    updatedAtLabel.data = '最' :: ("后更新时间：" : String).data := rfl

end UpdateStats

namespace UpdateStats

lemma transformReadmeLine_domain_row (a : ReadmeArgs) (line : String)
    (w1 w2 w3 w4 : List Char) (d : Char) (dt : List Char)
    (hw1 : ∀ c ∈ w1, isJsSpace c = true) (hw2 : ∀ c ∈ w2, isJsSpace c = true)
    (hw3 : ∀ c ∈ w3, isJsSpace c = true) (hw4 : ∀ c ∈ w4, isJsSpace c = true)
    (hdsd : ∀ c ∈ d :: dt, c.isDigit = true)
    (hline : line.data = '|' :: (w1 ++ (("DOMAIN" : String).data ++ (w2 ++
      ('|' :: (w3 ++ ((d :: dt) ++ (w4 ++ ['|'])))))))) :
    transformReadmeLine a line = renderRow "DOMAIN" a.domainCount := by
  have hlab : jsStartsWith line updatedAtLabel = false :=
    jsStartsWith_false_head line updatedAtLabel '最' _ '|' _ updatedAtLabel_data
      hline (by decide)
  have hrow : matchesRow "DOMAIN" line = true :=
    matchesRow_of_shape "DOMAIN" 'D' _ rfl (by decide) w1 w2 w3 w4 d dt
      hw1 hw2 hw3 hw4 hdsd line hline
  rw [transformReadmeLine, if_neg (by simp [hlab]), if_pos hrow]

lemma transformReadmeLine_domainSuffix_row (a : ReadmeArgs) (line : String)
    (w1 w2 w3 w4 : List Char) (d : Char) (dt : List Char)
    (hw1 : ∀ c ∈ w1, isJsSpace c = true) (hw2 : ∀ c ∈ w2, isJsSpace c = true)
    (hw3 : ∀ c ∈ w3, isJsSpace c = true) (hw4 : ∀ c ∈ w4, isJsSpace c = true)
    (hdsd : ∀ c ∈ d :: dt, c.isDigit = true)
    (hline : line.data = '|' :: (w1 ++ (("DOMAIN-SUFFIX" : String).data ++
      (w2 ++ ('|' :: (w3 ++ ((d :: dt) ++ (w4 ++ ['|'])))))))) :
    transformReadmeLine a line = renderRow "DOMAIN-SUFFIX" a.domainSuffixCount := by
  have hlab : jsStartsWith line updatedAtLabel = false :=
    jsStartsWith_false_head line updatedAtLabel '最' _ '|' _ updatedAtLabel_data
      hline (by decide)
  have hdom : matchesRow "DOMAIN" line = false :=
    matchesRow_domain_on_suffix_shape w1 w2 w3 w4 d dt hw1 line hline
  have hrow : matchesRow "DOMAIN-SUFFIX" line = true :=
    matchesRow_of_shape "DOMAIN-SUFFIX" 'D' _ rfl (by decide) w1 w2 w3 w4 d dt
      hw1 hw2 hw3 hw4 hdsd line hline
  rw [transformReadmeLine, if_neg (by simp [hlab]), if_neg (by simp [hdom]),
    if_pos hrow]

lemma transformReadmeLine_total_row (a : ReadmeArgs) (line : String)
    (w1 w2 w3 w4 : List Char) (d : Char) (dt : List Char)
    (hw1 : ∀ c ∈ w1, isJsSpace c = true) (hw2 : ∀ c ∈ w2, isJsSpace c = true)
    (hw3 : ∀ c ∈ w3, isJsSpace c = true) (hw4 : ∀ c ∈ w4, isJsSpace c = true)
    (hdsd : ∀ c ∈ d :: dt, c.isDigit = true)
    (hline : line.data = '|' :: (w1 ++ (("TOTAL" : String).data ++ (w2 ++
      ('|' :: (w3 ++ ((d :: dt) ++ (w4 ++ ['|'])))))))) :
    transformReadmeLine a line = renderRow "TOTAL" a.total := by
  have hlab : jsStartsWith line updatedAtLabel = false :=
    jsStartsWith_false_head line updatedAtLabel '最' _ '|' _ updatedAtLabel_data
      hline (by decide)
  have hline2 : line.data = '|' :: (w1 ++ ('T' :: (("OTAL" : String).data ++
      (w2 ++ ('|' :: (w3 ++ ((d :: dt) ++ (w4 ++ ['|'])))))))) := hline
  have hdom : matchesRow "DOMAIN" line = false :=
    matchesRow_false_of_head "DOMAIN" 'D' _ rfl line w1 'T' _ hw1 (by decide)
      hline2 (by decide)
  have hds : matchesRow "DOMAIN-SUFFIX" line = false :=
    matchesRow_false_of_head "DOMAIN-SUFFIX" 'D' _ rfl line w1 'T' _ hw1
      (by decide) hline2 (by decide)
  have hrow : matchesRow "TOTAL" line = true :=
    matchesRow_of_shape "TOTAL" 'T' _ rfl (by decide) w1 w2 w3 w4 d dt
      hw1 hw2 hw3 hw4 hdsd line hline
  rw [transformReadmeLine, if_neg (by simp [hlab]), if_neg (by simp [hdom]),
    if_neg (by simp [hds]), if_pos hrow]

end UpdateStats

namespace UpdateStats

/-! ## Occurrence and replacement lemmas -/

lemma containsTok_iff (tok l : List Char) :
    containsTok tok l = true ↔ ∃ b a, l = b ++ (tok ++ a) := by
  induction l with
  | nil =>
    rw [containsTok]
    constructor
    · intro h
      have : tok = [] := by simpa [List.isEmpty_iff] using h
      exact ⟨[], [], by simp [this]⟩
    · rintro ⟨b, a, h⟩
      have := h.symm
      simp only [List.append_eq_nil] at this
      simp [List.isEmpty_iff, this.2.1]
  | cons c rest ih =>
    rw [containsTok]
    simp only [Bool.or_eq_true, isPrefixOf_true, ih]
    constructor
    · rintro (⟨t, ht⟩ | ⟨b, a, hb⟩)
      · exact ⟨[], t, by simp [ht]⟩
      · exact ⟨c :: b, a, by simp [hb]⟩
    · rintro ⟨b, a, hb⟩
      cases b with
      | nil => exact Or.inl ⟨a, by simpa using hb⟩
      | cons x b' =>
        rw [List.cons_append] at hb
        injection hb with h1 h2
        exact Or.inr ⟨b', a, h2⟩

/-- `replace` rewrites exactly the first (leftmost) occurrence. -/
lemma getSubstitution_cons_other (m b a : List Char) (c : Char)
    (r : List Char) (hc : c ≠ '$') :
    getSubstitution m b a (c :: r) = c :: getSubstitution m b a r := by
  rw [getSubstitution.eq_def]
  split
  · rename_i heq
    exact absurd heq (by simp)
  · rename_i heq
    injection heq with hx hy
    exact absurd hx hc
  · rename_i heq
    injection heq with hx hy
    exact absurd hx hc
  · rename_i heq
    injection heq with hx hy
    exact absurd hx hc
  · rename_i heq
    injection heq with hx hy
    exact absurd hx hc
  · rename_i heq
    injection heq with hx hy
    subst hx
    subst hy
    rfl

/-- With no `$` in the replacement string, `GetSubstitution` is the identity:
the replacement is spliced in as plain text. -/
lemma getSubstitution_no_dollar (m b a rep : List Char) (h : '$' ∉ rep) :
    getSubstitution m b a rep = rep := by
  induction rep with
  | nil => rfl
  | cons c r ih =>
    simp only [List.mem_cons, not_or] at h
    rw [getSubstitution_cons_other m b a c r (fun e => h.1 e.symm), ih h.2]

/-- `replace` rewrites exactly the first (leftmost) occurrence; with a
`$`-free replacement string it is spliced in verbatim. -/
lemma replaceFirstAux_spec (p : Char) (ps rep : List Char)
    (hrep : '$' ∉ rep) (pre l : List Char)
    (h : containsTok (p :: ps) l = true) :
    ∃ b suf, l = b ++ ((p :: ps) ++ suf) ∧
      (∀ b' suf', l = b' ++ ((p :: ps) ++ suf') → b.length ≤ b'.length) ∧
      replaceFirstAux p ps rep pre l = b ++ (rep ++ suf) := by
  induction l generalizing pre with
  | nil => simp [containsTok, List.isEmpty_iff] at h
  | cons c rest ih =>
    rw [replaceFirstAux]
    by_cases hp : (p :: ps).isPrefixOf (c :: rest) = true
    · rw [if_pos hp]
      obtain ⟨t, ht⟩ := (isPrefixOf_true _ _).mp hp
      have h2 : rest = ps ++ t := by
        rw [List.cons_append] at ht
        injection ht with _ h2
      refine ⟨[], t, by simpa using ht, fun b' suf' _ => by simp, ?_⟩
      rw [h2, List.drop_left, getSubstitution_no_dollar _ _ _ rep hrep]
      simp
    · rw [if_neg hp]
      rw [containsTok] at h
      have hp' : (p :: ps).isPrefixOf (c :: rest) = false :=
        Bool.eq_false_iff.mpr hp
      have hrest : containsTok (p :: ps) rest = true := by
        simpa [hp'] using h
      obtain ⟨b, suf, hb, hmin, hrw⟩ := ih (pre ++ [c]) hrest
      refine ⟨c :: b, suf, by simp [hb], ?_, by simp [hrw]⟩
      intro b' suf' h'
      cases b' with
      | nil =>
        exfalso
        apply hp
        rw [isPrefixOf_true]
        exact ⟨suf', by simpa using h'⟩
      | cons x b'' =>
        rw [List.cons_append] at h'
        injection h' with h1 h2
        have := hmin b'' suf' h2
        simp only [List.length_cons]
        omega

/-- `q` contains no occurrence of `tok` that starts strictly before the end
of `q`, even one overflowing into a directly appended copy of `tok`. -/
def NoEarlyOcc (tok q : List Char) : Prop :=
  ∀ b a : List Char, q ++ tok = b ++ (tok ++ a) → q.length ≤ b.length

lemma noEarlyOcc_tail (tok : List Char) (c : Char) (q : List Char)
    (h : NoEarlyOcc tok (c :: q)) : NoEarlyOcc tok q := by
  intro b a hba
  have h2 := h (c :: b) a (by simp [hba])
  simpa using h2

lemma noEarlyOcc_head (p : Char) (ps : List Char) (c : Char) (q : List Char)
    (h : NoEarlyOcc (p :: ps) (c :: q)) :
    ∀ t, (c :: q) ++ (p :: ps) ≠ (p :: ps) ++ t := by
  intro t he
  have h2 := h [] t (by simpa using he)
  simp at h2

lemma noEarlyOcc_not_prefix_bare (p : Char) (ps : List Char) (c : Char)
    (q : List Char) (h : NoEarlyOcc (p :: ps) (c :: q)) :
    (p :: ps).isPrefixOf (c :: q) = false := by
  rw [Bool.eq_false_iff]
  intro hp
  obtain ⟨t, ht⟩ := (isPrefixOf_true _ _).mp hp
  exact noEarlyOcc_head p ps c q h (t ++ (p :: ps))
    (by rw [ht, List.append_assoc])

lemma noEarlyOcc_not_prefix_step (p : Char) (ps : List Char) (c : Char)
    (q rest : List Char) (h : NoEarlyOcc (p :: ps) (c :: q)) :
    (p :: ps).isPrefixOf ((c :: q) ++ ((p :: ps) ++ rest)) = false := by
  rw [Bool.eq_false_iff]
  intro hp
  obtain ⟨t, ht⟩ := (isPrefixOf_true _ _).mp hp
  have hN : ((c :: q) ++ (p :: ps)).length =
      (c :: q).length + (p :: ps).length := List.length_append _ _
  have htake := congrArg (List.take ((c :: q) ++ (p :: ps)).length) ht
  rw [← List.append_assoc, List.take_left] at htake
  rw [List.take_append_eq_append_take] at htake
  have hlen : (p :: ps).length ≤ ((c :: q) ++ (p :: ps)).length := by
    rw [hN]; omega
  rw [List.take_of_length_le hlen] at htake
  exact noEarlyOcc_head p ps c q h _ htake

/-- `replaceAll` leaves a token-free segment unchanged (for any scanned
prefix). -/
lemma replaceAllAux_no_occ (p : Char) (ps rep : List Char) (q : List Char)
    (h : NoEarlyOcc (p :: ps) q) :
    ∀ pre : List Char, replaceAllAux p ps rep pre q = q := by
  induction q with
  | nil => intro pre; simp [replaceAllAux]
  | cons c q' ih =>
    intro pre
    rw [replaceAllAux, if_neg (by simp [noEarlyOcc_not_prefix_bare p ps c q' h])]
    rw [ih (noEarlyOcc_tail _ c q' h) (pre ++ [c])]

/-- With a `$`-free replacement string the scanned prefix does not influence
`replaceAll`. -/
lemma replaceAllAux_pre_indep (p : Char) (ps rep : List Char)
    (hrep : '$' ∉ rep) :
    ∀ (pre l pre' : List Char),
      replaceAllAux p ps rep pre l = replaceAllAux p ps rep pre' l := by
  intro pre l
  induction pre, l using replaceAllAux.induct p ps rep with
  | case1 pre => intro pre'; simp [replaceAllAux]
  | case2 pre c rest hcond ih =>
    intro pre'
    rw [replaceAllAux, replaceAllAux, if_pos hcond, if_pos hcond,
      getSubstitution_no_dollar _ _ _ rep hrep,
      getSubstitution_no_dollar _ _ _ rep hrep,
      ih (pre' ++ (p :: ps))]
  | case3 pre c rest hcond ih =>
    intro pre'
    rw [replaceAllAux, replaceAllAux, if_neg hcond, if_neg hcond,
      ih (pre' ++ [c])]

/-- `replaceAll` consumes a token-free segment, rewrites the following
occurrence of the token, and continues after it. -/
lemma replaceAllAux_step (p : Char) (ps rep : List Char) (hrep : '$' ∉ rep)
    (q rest : List Char) (h : NoEarlyOcc (p :: ps) q) :
    ∀ pre : List Char,
      replaceAllAux p ps rep pre (q ++ ((p :: ps) ++ rest)) =
        q ++ (rep ++ replaceAllAux p ps rep [] rest) := by
  induction q with
  | nil =>
    intro pre
    simp only [List.nil_append]
    rw [show (p :: ps) ++ rest = p :: (ps ++ rest) from rfl]
    rw [replaceAllAux,
      if_pos (by
        rw [show p :: (ps ++ rest) = (p :: ps) ++ rest from rfl]
        exact isPrefixOf_append_self _ _),
      List.drop_left, getSubstitution_no_dollar _ _ _ rep hrep,
      replaceAllAux_pre_indep p ps rep hrep _ rest []]
  | cons c q' ih =>
    intro pre
    have hnp : (p :: ps).isPrefixOf ((c :: q') ++ ((p :: ps) ++ rest)) =
        false := noEarlyOcc_not_prefix_step p ps c q' rest h
    rw [List.cons_append] at hnp
    rw [List.cons_append, replaceAllAux, if_neg (Bool.eq_false_iff.mp hnp),
      ih (noEarlyOcc_tail _ c q' h) (pre ++ [c])]
    simp

/-- The list of segments between consecutive token occurrences, rejoined with
the token. -/
def intercalateTok (tok : List Char) : List (List Char) → List Char
  | [] => []
  | [q] => q
  | q :: qs => q ++ (tok ++ intercalateTok tok qs)

/-- `replaceAll` with a `$`-free replacement substitutes every occurrence:
on a line decomposed into token-free segments joined by the token, it rejoins
the same segments with the replacement. -/
lemma replaceAllL_intercalate (p : Char) (ps rep : List Char)
    (hrep : '$' ∉ rep) (parts : List (List Char))
    (h : ∀ q ∈ parts, NoEarlyOcc (p :: ps) q) :
    replaceAllL (p :: ps) rep (intercalateTok (p :: ps) parts) =
      intercalateTok rep parts := by
  induction parts with
  | nil => simp [intercalateTok, replaceAllL, replaceAllAux]
  | cons q parts' ih =>
    cases parts' with
    | nil =>
      show replaceAllAux p ps rep [] q = q
      exact replaceAllAux_no_occ p ps rep q (h q (by simp)) []
    | cons r parts'' =>
      show replaceAllAux p ps rep []
          (q ++ ((p :: ps) ++ intercalateTok (p :: ps) (r :: parts''))) =
        q ++ (rep ++ intercalateTok rep (r :: parts''))
      rw [replaceAllAux_step p ps rep hrep q _ (h q (by simp)) []]
      have ih2 := ih (fun x hx => h x (by simp [hx]))
      rw [show replaceAllAux p ps rep []
          (intercalateTok (p :: ps) (r :: parts'')) =
          replaceAllL (p :: ps) rep (intercalateTok (p :: ps) (r :: parts''))
          from rfl, ih2]

end UpdateStats

namespace UpdateStats

lemma splice_chain_eq (L : List String) (pos : Nat) (hlen : 1 ≤ L.length)
    (hpos : pos ≤ L.length) (u d s t : String) :
    spliceInsert (spliceInsert (spliceInsert (spliceInsert L pos u) 2 d) 3 s)
      4 t =
      List.insertIdx 4 t (List.insertIdx 3 s
        (List.insertIdx 2 d (List.insertIdx pos u L))) := by
  have e1 := spliceInsert_eq_insertIdx L pos u hpos
  have l1 : (List.insertIdx pos u L).length = L.length + 1 := by
    rw [← e1, length_spliceInsert]
  have e2 := spliceInsert_eq_insertIdx (List.insertIdx pos u L) 2 d
    (by rw [l1]; omega)
  have l2 : (List.insertIdx 2 d (List.insertIdx pos u L)).length =
      L.length + 2 := by
    rw [← e2, length_spliceInsert, l1]
  have e3 := spliceInsert_eq_insertIdx _ 3 s (by rw [l2]; omega)
  have l3 : (List.insertIdx 3 s
      (List.insertIdx 2 d (List.insertIdx pos u L))).length = L.length + 3 := by
    rw [← e3, length_spliceInsert, l2]
  have e4 := spliceInsert_eq_insertIdx _ 4 t (by rw [l3]; omega)
  rw [e1, e2, e3, e4]

/-! ## Claims -/

/-- C1 counterexample: on the input `",x"` the single line is neither blank
nor a comment, yet its category token (the trimmed text before the first
comma) is empty, so the counter skips it: `total` is `0` while the number of
non-blank non-comment lines is `1`. -/
theorem counter_total_counts_all_rule_lines_cx :
    ¬ ((parseCountsFromList ",x").total =
      ((splitLines ",x").filter
        (fun l => !(jsTrim l == "") && !jsStartsWith (jsTrim l) "#")).length) := by
  decide

/-- C1 (amended): for every input text, the counter's `total` equals the
number of lines that are neither blank nor comment lines and whose extracted
category token is non-empty. -/
theorem counter_total_eq_countable_lines (content : String) :
    (parseCountsFromList content).total =
      ((splitLines content).filter
        (fun l => !(jsTrim l == "") && !jsStartsWith (jsTrim l) "#" &&
          !(extractType l == ""))).length := by
  show ((splitLines content).foldl countStep ([], 0)).2 = _
  rw [foldl_countStep_total, Nat.zero_add, ← List.countP_eq_length_filter]
  apply List.countP_congr
  intro x _
  rw [isRuleLine_eq]

/-- C2: when no header tag is present in the input, `# UPDATED:` is inserted
directly after the first line with non-empty trimmed content (at index 0 if
every line is blank), and then `# DOMAIN:`, `# DOMAIN-SUFFIX:` and `# TOTAL:`
are inserted at fixed indices 2, 3 and 4 of the current line sequence, in
that order. -/
theorem header_insertion_positions (content : String) (a : HeaderArgs)
    (h : ∀ l ∈ splitLines content, isHeaderTagLine l = false) :
    updateListHeader content a =
      joinNL (List.insertIdx 4 (totalLine a)
        (List.insertIdx 3 (domainSuffixLine a)
          (List.insertIdx 2 (domainLine a)
            (List.insertIdx
              (match jsFindIndex (fun l => !(jsTrim l == ""))
                  (splitLines content) with
               | none => 0
               | some i => i + 1)
              (updatedLine a) (splitLines content))))) := by
  show joinNL (updateListHeaderLines content a) = _
  rw [updateListHeaderLines_no_tags content a h]
  congr 1
  have hne := splitLinesAux_ne_nil content.data []
  have hlen : 1 ≤ (splitLines content).length := by
    cases hS : splitLines content with
    | nil => exact absurd hS hne
    | cons x tl => simp
  have hpred : jsFindIndex (fun l => 0 < (jsTrim l).length)
      (splitLines content) =
      jsFindIndex (fun l => !(jsTrim l == "")) (splitLines content) := by
    apply jsFindIndex_congr
    intro x
    by_cases he : jsTrim x = ""
    · simp [he]
    · have hlne : (jsTrim x).length ≠ 0 := fun h0 =>
        he (by rw [str_eq_empty_iff]; exact List.length_eq_zero.mp h0)
      simp [he, Nat.pos_of_ne_zero hlne]
  rw [hpred]
  cases hidx : jsFindIndex (fun l => !(jsTrim l == "")) (splitLines content) with
  | none =>
    simp only
    exact splice_chain_eq _ 0 hlen (by omega) _ _ _ _
  | some i =>
    have hi := jsFindIndex_lt_length _ _ i hidx
    simp only
    rw [Nat.min_eq_left (by omega)]
    exact splice_chain_eq _ (i + 1) hlen (by omega) _ _ _ _

/-- C3 counterexample: on the input `"abc\r"` (a lone carriage return with no
line feed) the first rewrite keeps the `\r` and joins with `\n`; the second
rewrite's `split(/\r?\n/)` then swallows the `\r` as part of a `\r\n` break,
so running the rewrite twice differs from running it once. -/
theorem list_header_rewrite_not_idempotent_cx :
    updateListHeader (updateListHeader "abc\r" ⟨"t", 0, 0, 0⟩) ⟨"t", 0, 0, 0⟩ ≠
      updateListHeader "abc\r" ⟨"t", 0, 0, 0⟩ := by
  decide

/-- C3 (amended): the list-header rewrite is idempotent provided no line of
the input ends in a carriage return and the timestamp contains neither a
carriage return nor a line feed. -/
theorem list_header_rewrite_idempotent_of_clean (content : String)
    (a : HeaderArgs)
    (hc : ∀ l ∈ splitLines content, l.data.getLast? ≠ some '\r')
    (hr : '\r' ∉ a.updatedAt.data) (hn : '\n' ∉ a.updatedAt.data) :
    updateListHeader (updateListHeader content a) a =
      updateListHeader content a := by
  show joinNL (updateListHeaderLines (updateListHeader content a) a) = _
  rw [updateListHeader_second_pass content a hc hr hn]
  rfl

theorem list_header_rewrite_idempotent_of_clean_witness :
    updateListHeader
        (updateListHeader "example.com\nfoo.org"
          ⟨"2024-01-01 00:00:00", 1, 0, 2⟩)
        ⟨"2024-01-01 00:00:00", 1, 0, 2⟩ =
      updateListHeader "example.com\nfoo.org" ⟨"2024-01-01 00:00:00", 1, 0, 2⟩ :=
  list_header_rewrite_idempotent_of_clean "example.com\nfoo.org"
    ⟨"2024-01-01 00:00:00", 1, 0, 2⟩ (by decide) (by decide) (by decide)

/-- C4: every line that does not begin with one of the four header prefixes
appears unchanged and in its original relative order in the rewrite's output
line sequence, which is rejoined with `'\n'` to form the output string. -/
theorem non_header_lines_preserved (content : String) (a : HeaderArgs) :
    (updateListHeaderLines content a).filter (fun l => !isHeaderTagLine l) =
      (splitLines content).filter (fun l => !isHeaderTagLine l) ∧
    updateListHeader content a = joinNL (updateListHeaderLines content a) :=
  ⟨filter_updateListHeaderLines content a, rfl⟩

/-- C5: the sum over all categories of the per-category counts equals the
returned total. -/
theorem category_counts_sum_eq_total (content : String) :
    sumCounts (parseCountsFromList content).typeCounts =
      (parseCountsFromList content).total := by
  show sumCounts ((splitLines content).foldl countStep ([], 0)).1 =
    ((splitLines content).foldl countStep ([], 0)).2
  exact foldl_countStep_sum _ [] 0 rfl

end UpdateStats

namespace UpdateStats

theorem header_insertion_positions_witness :
    updateListHeader "example.com\nfoo.org" ⟨"TS", 1, 0, 2⟩ =
      joinNL (List.insertIdx 4 (totalLine ⟨"TS", 1, 0, 2⟩)
        (List.insertIdx 3 (domainSuffixLine ⟨"TS", 1, 0, 2⟩)
          (List.insertIdx 2 (domainLine ⟨"TS", 1, 0, 2⟩)
            (List.insertIdx
              (match jsFindIndex (fun l => !(jsTrim l == ""))
                  (splitLines "example.com\nfoo.org") with
               | none => 0
               | some i => i + 1)
              (updatedLine ⟨"TS", 1, 0, 2⟩)
              (splitLines "example.com\nfoo.org"))))) :=
  header_insertion_positions "example.com\nfoo.org" ⟨"TS", 1, 0, 2⟩ (by decide)

/-- C6: any line of the exact table-row shape
`| <KEY> | <digits> |` (whitespace tolerated around the pipes, digits only in
the value column, the trailing pipe ending the line) is replaced by the
canonical row with the key right-padded to 14 characters and the count
right-padded to 5; in particular a `DOMAIN` row with count 3 renders as
exactly `| DOMAIN         | 3     |`. -/
theorem readme_table_row_render (a : ReadmeArgs) (key : String) (v : Nat)
    (hkey : (key, v) ∈ [("DOMAIN", a.domainCount),
      ("DOMAIN-SUFFIX", a.domainSuffixCount), ("TOTAL", a.total)])
    (w1 w2 w3 w4 : List Char) (d : Char) (dt : List Char)
    (hw1 : ∀ c ∈ w1, isJsSpace c = true) (hw2 : ∀ c ∈ w2, isJsSpace c = true)
    (hw3 : ∀ c ∈ w3, isJsSpace c = true) (hw4 : ∀ c ∈ w4, isJsSpace c = true)
    (hdsd : ∀ c ∈ d :: dt, c.isDigit = true)
    (line : String)
    (hline : line.data = '|' :: (w1 ++ (key.data ++ (w2 ++
      ('|' :: (w3 ++ ((d :: dt) ++ (w4 ++ ['|'])))))))) :
    transformReadmeLine a line = renderRow key v ∧
      renderRow "DOMAIN" 3 = "| DOMAIN         | 3     |" ∧
      updateReadme line a =
        joinNL ((splitLines line).map (transformReadmeLine a)) := by
  refine ⟨?_, by decide, rfl⟩
  simp only [List.mem_cons, List.mem_singleton, Prod.mk.injEq,
    List.not_mem_nil, or_false] at hkey
  rcases hkey with ⟨rfl, rfl⟩ | ⟨rfl, rfl⟩ | ⟨rfl, rfl⟩
  · exact transformReadmeLine_domain_row a line w1 w2 w3 w4 d dt
      hw1 hw2 hw3 hw4 hdsd hline
  · exact transformReadmeLine_domainSuffix_row a line w1 w2 w3 w4 d dt
      hw1 hw2 hw3 hw4 hdsd hline
  · exact transformReadmeLine_total_row a line w1 w2 w3 w4 d dt
      hw1 hw2 hw3 hw4 hdsd hline

theorem readme_table_row_render_witness :
    transformReadmeLine ⟨"TS", 3, 0, 0, none⟩ "| DOMAIN | 3 |" =
      renderRow "DOMAIN" 3 ∧
      renderRow "DOMAIN" 3 = "| DOMAIN         | 3     |" ∧
      updateReadme "| DOMAIN | 3 |" ⟨"TS", 3, 0, 0, none⟩ =
        joinNL ((splitLines "| DOMAIN | 3 |").map
          (transformReadmeLine ⟨"TS", 3, 0, 0, none⟩)) :=
  readme_table_row_render ⟨"TS", 3, 0, 0, none⟩ "DOMAIN" 3 (by decide)
    [' '] [' '] [' '] [' '] '3' [] (by decide) (by decide) (by decide)
    (by decide) (by decide) "| DOMAIN | 3 |" (by decide)

/-- C7: for every rule-entry line the category token is the text before the
first comma of the original line, trimmed (equivalently, the trimmed longest
comma-free prefix); with no comma the whole trimmed line is the category, so
the line `DOMAIN` counts once for category `DOMAIN`; and a line whose
extracted token is empty contributes nothing. -/
theorem category_token_extraction :
    (∀ line : String, isRuleLine line = true →
      extractType line = jsTrim ⟨line.data.takeWhile (fun c => !(c == ','))⟩) ∧
    (∀ line : String, isRuleLine line = true → ',' ∉ line.data →
      extractType line = jsTrim line) ∧
    parseCountsFromList "DOMAIN" = ⟨[("DOMAIN", 1)], 1⟩ ∧
    (∀ (acc : List (String × Nat) × Nat) (line : String),
      isRuleLine line = true → extractType line = "" →
      countStep acc line = acc) :=
  ⟨fun line _ => extractType_eq line,
   fun line _ h => extractType_no_comma line h,
   by decide,
   fun acc line _ h => countStep_skip acc line h⟩

theorem category_token_extraction_witness :
    extractType " DOMAIN ,x" =
      jsTrim ⟨(" DOMAIN ,x" : String).data.takeWhile (fun c => !(c == ','))⟩ ∧
    extractType "DOMAIN" = jsTrim "DOMAIN" ∧
    countStep ([], 0) " , " = ([], 0) :=
  ⟨category_token_extraction.1 " DOMAIN ,x" (by decide),
   category_token_extraction.2.1 "DOMAIN" (by decide) (by decide),
   category_token_extraction.2.2.2 ([], 0) " , " (by decide) (by decide)⟩

end UpdateStats

namespace UpdateStats

/-- C8 counterexample: the claim says the datetime placeholder is "replaced
by updatedAt", but JavaScript applies `GetSubstitution` to the replacement
string: with `updatedAt = "$&"` the `$&` escape expands to the matched token
itself, so the first occurrence is not replaced by the literal text
`updatedAt`. -/
theorem readme_placeholder_dispatch_cx :
    transformReadmeLine ⟨"$&", 0, 0, 0, none⟩
        "x$\x7b\x7b datetime \x7d\x7d" ≠ "x$&" ∧
    transformReadmeLine ⟨"$&", 0, 0, 0, none⟩
        "x$\x7b\x7b datetime \x7d\x7d" =
      "x$\x7b\x7b datetime \x7d\x7d" := by
  decide

/-- C8 (amended): on a line matching neither the last-updated label nor any
table row, the `$\x7b\x7b datetime \x7d\x7d` token, when present, has
exactly its first (leftmost) occurrence replaced — by `updatedAt` verbatim
provided `updatedAt` contains no `$` (in general by its `GetSubstitution`
expansion); otherwise, when the line contains `$\x7b\x7b TempName \x7d\x7d`
and a non-empty template name without `$` was supplied, every occurrence is
replaced (`replaceAll`, which rejoins the token-free segments with the
template name); any other line is unchanged. -/
theorem readme_placeholder_dispatch (a : ReadmeArgs) (line : String)
    (h1 : jsStartsWith line updatedAtLabel = false)
    (h2 : matchesRow "DOMAIN" line = false)
    (h3 : matchesRow "DOMAIN-SUFFIX" line = false)
    (h4 : matchesRow "TOTAL" line = false) :
    (jsIncludes line dtTok = true → '$' ∉ a.updatedAt.data →
      ∃ b suf, line.data = b ++ (dtTok.data ++ suf) ∧
        (∀ b' suf', line.data = b' ++ (dtTok.data ++ suf') →
          b.length ≤ b'.length) ∧
        transformReadmeLine a line = ⟨b ++ (a.updatedAt.data ++ suf)⟩) ∧
    (jsIncludes line dtTok = false → ∀ t, a.tempName = some t → t ≠ "" →
      '$' ∉ t.data → jsIncludes line tmpTok = true →
      transformReadmeLine a line =
        ⟨replaceAllL tmpTok.data t.data line.data⟩ ∧
      ∀ parts : List (List Char), (∀ q ∈ parts, NoEarlyOcc tmpTok.data q) →
        line.data = intercalateTok tmpTok.data parts →
        replaceAllL tmpTok.data t.data line.data =
          intercalateTok t.data parts) ∧
    (jsIncludes line dtTok = false →
      (jsIncludes line tmpTok = false ∨ a.tempName = none ∨
        a.tempName = some "") →
      transformReadmeLine a line = line) := by
  refine ⟨?_, ?_, ?_⟩
  · intro hdt hdol
    obtain ⟨b, suf, hb, hmin, hrw⟩ :=
      replaceFirstAux_spec '$' ("\x7b\x7b datetime \x7d\x7d" : String).data
        a.updatedAt.data hdol [] line.data hdt
    refine ⟨b, suf, hb, hmin, ?_⟩
    rw [transformReadmeLine, if_neg (by simp [h1]), if_neg (by simp [h2]),
      if_neg (by simp [h3]), if_neg (by simp [h4]), if_pos hdt]
    show (⟨replaceFirstAux '$' ("\x7b\x7b datetime \x7d\x7d" : String).data
      a.updatedAt.data [] line.data⟩ : String) = _
    rw [hrw]
  · intro hdt t ht htne hdol hin
    constructor
    · rw [transformReadmeLine, if_neg (by simp [h1]), if_neg (by simp [h2]),
        if_neg (by simp [h3]), if_neg (by simp [h4]), if_neg (by simp [hdt]),
        ht]
      show (if (jsIncludes line tmpTok && !(t == "")) = true
          then (⟨replaceAllL tmpTok.data t.data line.data⟩ : String)
          else line) = _
      rw [if_pos (by simp [hin, htne])]
    · intro parts hparts hdecomp
      rw [hdecomp]
      exact replaceAllL_intercalate '$'
        ("\x7b\x7b TempName \x7d\x7d" : String).data t.data hdol parts
        hparts
  · intro hdt hcase
    rw [transformReadmeLine, if_neg (by simp [h1]), if_neg (by simp [h2]),
      if_neg (by simp [h3]), if_neg (by simp [h4]), if_neg (by simp [hdt])]
    rcases hcase with hin | hnone | hempty
    · cases htn : a.tempName with
      | none => rfl
      | some t =>
        show (if (jsIncludes line tmpTok && !(t == "")) = true
            then (⟨replaceAllL tmpTok.data t.data line.data⟩ : String)
            else line) = line
        rw [if_neg (by simp [hin])]
    · rw [hnone]
    · rw [hempty]
      show (if (jsIncludes line tmpTok && !(("" : String) == "")) = true
          then (⟨replaceAllL tmpTok.data ("" : String).data line.data⟩ : String)
          else line) = line
      rw [if_neg (by simp)]

theorem readme_placeholder_dispatch_witness :
    transformReadmeLine ⟨"TS", 0, 0, 0, some "mylist"⟩
        "name: $\x7b\x7b TempName \x7d\x7d" =
      ⟨replaceAllL tmpTok.data ("mylist" : String).data
        ("name: $\x7b\x7b TempName \x7d\x7d" : String).data⟩ ∧
    transformReadmeLine ⟨"TS", 0, 0, 0, none⟩ "plain" = "plain" :=
  ⟨((readme_placeholder_dispatch ⟨"TS", 0, 0, 0, some "mylist"⟩
      "name: $\x7b\x7b TempName \x7d\x7d" (by decide) (by decide)
      (by decide) (by decide)).2.1 (by decide) "mylist" rfl (by decide)
      (by decide) (by decide)).1,
   (readme_placeholder_dispatch ⟨"TS", 0, 0, 0, none⟩ "plain" (by decide)
      (by decide) (by decide) (by decide)).2.2 (by decide)
      (Or.inr (Or.inl rfl))⟩

/-- C9: the three core functions are total Lean functions — for every input
text, timestamp, counts and optional template name each returns a result. -/
theorem core_functions_total (content readme : String) (a : HeaderArgs)
    (r : ReadmeArgs) :
    ∃ (s : CountSummary) (o p : String),
      parseCountsFromList content = s ∧ updateListHeader content a = o ∧
        updateReadme readme r = p :=
  ⟨_, _, _, rfl, rfl, rfl⟩

/-- C10: with the empty string supplied as template name, a line containing
the `$\x7b\x7b TempName \x7d\x7d` placeholder (and matching no earlier rule)
is returned unchanged: the truthiness test rejects the empty string. -/
theorem empty_template_name_no_substitution (a : ReadmeArgs) (line : String)
    (ht : a.tempName = some "")
    (h1 : jsStartsWith line updatedAtLabel = false)
    (h2 : matchesRow "DOMAIN" line = false)
    (h3 : matchesRow "DOMAIN-SUFFIX" line = false)
    (h4 : matchesRow "TOTAL" line = false)
    (h5 : jsIncludes line dtTok = false)
    (_h6 : jsIncludes line tmpTok = true) :
    transformReadmeLine a line = line := by
  rw [transformReadmeLine, if_neg (by simp [h1]), if_neg (by simp [h2]),
    if_neg (by simp [h3]), if_neg (by simp [h4]), if_neg (by simp [h5]), ht]
  show (if (jsIncludes line tmpTok && !(("" : String) == "")) = true
      then (⟨replaceAllL tmpTok.data ("" : String).data line.data⟩ : String)
      else line) = line
  rw [if_neg (by simp)]

theorem empty_template_name_no_substitution_witness :
    transformReadmeLine ⟨"TS", 0, 0, 0, some ""⟩
        "name: $\x7b\x7b TempName \x7d\x7d" =
      "name: $\x7b\x7b TempName \x7d\x7d" :=
  empty_template_name_no_substitution ⟨"TS", 0, 0, 0, some ""⟩
    "name: $\x7b\x7b TempName \x7d\x7d" rfl (by decide) (by decide)
    (by decide) (by decide) (by decide) (by decide)

end UpdateStats
